import Mathlib

/-!
# Workfarm orchestration core — shallow embedding and verification

This file embeds the core data structures and operations of the workfarm
multi-agent orchestration engine (TypeScript) into Lean 4 and proves, or
refutes, a fixed list of specification claims about them.

Conventions of the embedding:

* JavaScript `Map` objects become Lean functions with an `Option` codomain
  (or a default value), updated pointwise.
* `uuidv4()` identifiers become natural numbers drawn from a fresh counter
  threaded through the state; only freshness/distinctness matters.
* `Date.now()` timestamps become a `now : Nat` argument.
* JavaScript truthiness of optional string fields (`undefined`, `null` and
  `""` are falsy) is modelled by `jsTruthy` / `jsOr` below.
* Results of the platform built-in `JSON.parse` (inside the lenient
  `extractJSON` helper of the source) are modelled as an `Option`-typed
  input of the decision function that consumes them, since the adversary's
  decisions depend only on the parse outcome.
-/

namespace Workfarm

/-- JS truthiness for an optional string field: `undefined`/`null` and `""`
are falsy, every other string is truthy. -/
def jsTruthy : Option String → Bool
  | none => false
  | some s => s ≠ ""

/-- JS `o || dflt` for an optional string field `o` and a string default. -/
def jsOr (o : Option String) (dflt : String) : String :=
  match o with
  | none => dflt
  | some s => if s = "" then dflt else s

/-- JS `o || false` for an optional boolean field. -/
def jsOrFalse (o : Option Bool) : Bool :=
  match o with
  | none => false
  | some b => b

/-- JS `o || null` for an optional numeric field (note `0 || null` is `null`). -/
def jsOrNullInt (o : Option Int) : Option Int :=
  match o with
  | none => none
  | some n => if n = 0 then none else some n

/-- JS `o || null` for an optional string field (note `"" || null` is `null`). -/
def jsOrNullStr (o : Option String) : Option String :=
  match o with
  | none => none
  | some s => if s = "" then none else some s

/-- JS `String.prototype.toLowerCase()`, modelled per character. (Built on
the underlying character list so that it evaluates by kernel reduction.) -/
def jsToLower (s : String) : String :=
  ⟨s.data.map Char.toLower⟩

/-! ## Statuses (from `src/types`) -/

/-- Source `PlanStep.status` of the source data model. -/
inductive StepStatus where
  | pending
  | inProgress
  | completed
  | failed
  | skipped
  | blocked
  deriving DecidableEq, Repr

/-- Source `AgentGoal.status` of the source data model. -/
inductive GoalStatus where
  | active
  | paused
  | completed
  | failed
  deriving DecidableEq, Repr

/-! ## PreferenceManager (`src/control/PreferenceManager.ts`) -/

/-- Source `AgentPreference.confidence` of the source data model. -/
inductive Confidence where
  | assumed
  | inferred
  | explicit
  deriving DecidableEq, Repr

/-- The confidence ordering of `addPreference`:
`const rank = { assumed: 0, inferred: 1, explicit: 2 }`. -/
def Confidence.rank : Confidence → Nat
  | .assumed => 0
  | .inferred => 1
  | .explicit => 2

/-- The stored `AgentPreference` record. -/
structure AgentPreference where
  id : Nat
  agentId : String
  category : String
  key : String
  value : String
  source : String
  confidence : Confidence
  createdAt : Nat
  usedCount : Nat
  lastUsedAt : Option Nat
  deriving DecidableEq, Repr

/-- The `pref` argument of `PreferenceManager.addPreference`. -/
structure PrefInput where
  category : String
  key : String
  value : String
  source : String
  confidence : Confidence
  deriving DecidableEq, Repr

/-- The in-place field update performed when an upsert wins:
`existing.value/source/confidence/category` are overwritten. -/
def applyPrefUpdate (existing : AgentPreference) (pref : PrefInput) : AgentPreference :=
  { existing with
      value := pref.value
      source := pref.source
      confidence := pref.confidence
      category := pref.category }

/-- Core of `PreferenceManager.addPreference` acting on one agent's
preference list: find the first entry with the same key
(`prefs.findIndex(p => p.key === pref.key)`); if found, overwrite it iff
`rank[pref.confidence] >= rank[existing.confidence]`, otherwise leave it;
if not found, push a fresh record. Returns the new list and the returned
preference. -/
def addPreferenceList (freshId : Nat) (now : Nat) (agentId : String)
    (pref : PrefInput) : List AgentPreference → List AgentPreference × AgentPreference
  | [] =>
      let newPref : AgentPreference :=
        { id := freshId
          agentId := agentId
          category := pref.category
          key := pref.key
          value := pref.value
          source := pref.source
          confidence := pref.confidence
          createdAt := now
          usedCount := 0
          lastUsedAt := none }
      ([newPref], newPref)
  | p :: rest =>
      if p.key = pref.key then
        if p.confidence.rank ≤ pref.confidence.rank then
          let updated := applyPrefUpdate p pref
          (updated :: rest, updated)
        else
          (p :: rest, p)
      else
        let r := addPreferenceList freshId now agentId pref rest
        (p :: r.1, r.2)

/-- PreferenceManager state: `agentId -> preferences` (a missing agent maps
to the empty list, matching the `has`/`set []` dance of the source), plus
the fresh-id counter standing in for `uuidv4()`. -/
structure PreferenceManagerState where
  prefs : String → List AgentPreference
  nextId : Nat

/-- Source `PreferenceManager.addPreference(agentId, pref)`. -/
def PreferenceManagerState.addPreference (st : PreferenceManagerState)
    (agentId : String) (pref : PrefInput) (now : Nat) :
    PreferenceManagerState × AgentPreference :=
  let r := addPreferenceList st.nextId now agentId pref (st.prefs agentId)
  ({ prefs := fun a => if a = agentId then r.1 else st.prefs a
     nextId := st.nextId + 1 }, r.2)

/-! ## GoalManager (`GoalManager` class of the source) -/

/-- The stored `AgentGoal` record (fields relevant to goal/plan management). -/
structure GMGoal where
  id : String
  agentId : String
  description : String
  constraints : List String
  status : GoalStatus
  maxTurnsPerStep : Nat
  createdAt : Nat
  updatedAt : Nat
  deriving DecidableEq, Repr

/-- The stored `PlanStep` record. -/
structure GMStep where
  id : Nat
  goalId : String
  description : String
  status : StepStatus
  taskId : Option String
  result : Option String
  question : Option String
  order : Nat
  createdAt : Nat
  completedAt : Option Nat
  deriving DecidableEq, Repr

/-- The stored `AgentPlan` record. -/
structure GMPlan where
  id : Nat
  goalId : String
  agentId : String
  steps : List GMStep
  version : Nat
  reasoning : String
  recurring : Bool
  intervalMinutes : Option Int
  cycleGoal : Option String
  completionCriteria : Option String
  createdAt : Nat
  updatedAt : Nat
  deriving DecidableEq, Repr

/-- The optional `lifecycle` argument of `setPlan`. -/
structure Lifecycle where
  recurring : Option Bool
  intervalMinutes : Option Int
  cycleGoal : Option String
  completionCriteria : Option String
  deriving DecidableEq, Repr

/-- GoalManager state: `goals` and `plans` maps (`goalId`-keyed) plus the
fresh-id counter standing in for `uuidv4()`. -/
structure GoalManagerState where
  goals : String → Option GMGoal
  plans : String → Option GMPlan
  nextId : Nat

/-- Source `GoalManager.setPlan(goalId, steps, reasoning, lifecycle?)`: returns
`undefined` if the goal is missing; otherwise builds a fresh plan with
`version = existing.version + 1` (or `1`), all steps `pending` with
`order = i` in input order, and replaces the current plan for the goal. -/
def GoalManagerState.setPlan (st : GoalManagerState) (goalId : String)
    (steps : List String) (reasoning : String) (lifecycle : Option Lifecycle)
    (now : Nat) : GoalManagerState × Option GMPlan :=
  match st.goals goalId with
  | none => (st, none)
  | some goal =>
      let version : Nat :=
        match st.plans goalId with
        | some existing => existing.version + 1
        | none => 1
      let plan : GMPlan :=
        { id := st.nextId
          goalId := goalId
          agentId := goal.agentId
          steps := steps.enum.map (fun p =>
            { id := st.nextId + 1 + p.1
              goalId := goalId
              description := p.2
              status := .pending
              taskId := none
              result := none
              question := none
              order := p.1
              createdAt := now
              completedAt := none })
          version := version
          reasoning := reasoning
          recurring := jsOrFalse (lifecycle.bind (·.recurring))
          intervalMinutes := jsOrNullInt (lifecycle.bind (·.intervalMinutes))
          cycleGoal := jsOrNullStr (lifecycle.bind (·.cycleGoal))
          completionCriteria := jsOrNullStr (lifecycle.bind (·.completionCriteria))
          createdAt := now
          updatedAt := now }
      ({ st with
          plans := fun g => if g = goalId then some plan else st.plans g
          nextId := st.nextId + 1 + steps.length }, some plan)

/-- Source `GoalManager.getCurrentPlan(goalId)`. -/
def GoalManagerState.getCurrentPlan (st : GoalManagerState) (goalId : String) :
    Option GMPlan :=
  st.plans goalId

/-- Source `GoalManager.getNextPendingStep(goalId)` on a plan's step list:
sort by `order` ascending, then take the first `pending` step. -/
def nextPendingStep (steps : List GMStep) : Option GMStep :=
  (List.insertionSort (fun a b => a.order ≤ b.order) steps).find?
    (fun s => s.status = .pending)

/-- Source `GoalManager.getBlockedStep(goalId)` on a plan's step list. -/
def blockedStep (steps : List GMStep) : Option GMStep :=
  steps.find? (fun s => s.status = .blocked)

/-! ## SessionManager (`src/control/SessionManager.ts`) -/

/-- Source `AgentSession.status` of the source data model. -/
inductive SessionStatus where
  | starting
  | active
  | waitingInput
  | completed
  | error
  deriving DecidableEq, Repr

/-- Source `SessionMessage.type` of the source data model. -/
inductive MsgType where
  | user
  | assistant
  | toolUse
  | toolResult
  | thinking
  | system
  deriving DecidableEq, Repr

/-- The metadata attached to a `tool_use` message. -/
structure ToolUseMeta where
  toolName : Option String
  toolId : String
  input : String
  deriving DecidableEq, Repr

/-- A `SessionMessage` (ids and timestamps are omitted: no claim depends
on them). -/
structure SessionMessage where
  type : MsgType
  content : String
  metadata : Option ToolUseMeta
  deriving DecidableEq, Repr

/-- A raw entry of the `permission_denials` list on a terminal result
event; either snake_case or camelCase fields may be present. Tool inputs
are opaque JSON values, modelled as their stringification. -/
structure RawDenial where
  tool_name : Option String
  toolName : Option String
  tool_input : Option String
  toolInput : Option String
  deriving DecidableEq, Repr

/-- A stored `pendingPermissions` entry. -/
structure PendingPermission where
  toolName : String
  toolInput : String
  deriving DecidableEq, Repr

/-- The mapping of a raw denial in `handleStreamEvent`:
`toolName: d.tool_name || d.toolName || 'unknown'` and
`toolInput: d.tool_input || d.toolInput || ` the empty object. -/
def toPendingPermission (d : RawDenial) : PendingPermission :=
  { toolName := jsOr d.tool_name (jsOr d.toolName "unknown")
    toolInput := jsOr d.tool_input (jsOr d.toolInput "\x7b\x7d") }

/-- The `content` field of an `assistant` event's `message`: a string, an
array of content blocks, or anything else (including absent). -/
inductive MessageContent where
  | str (s : String)
  | blocks (bs : List (Option String))
  | otherContent
  deriving DecidableEq, Repr

/-- A `content_block` of a `content_block_start` event. An absent or empty
text field is modelled as `""` (both are falsy in the source's checks). -/
inductive ContentBlock where
  | thinking (thinking : String)
  | toolUse (name : Option String) (id : String) (input : String)
  | text (text : String)
  | otherBlock
  deriving DecidableEq, Repr

/-- A `delta` of a `content_block_delta` event. -/
inductive DeltaBlock where
  | thinkingDelta (thinking : String)
  | textDelta (text : String)
  | inputJsonDelta (partialJson : Option String)
  | otherDelta
  deriving DecidableEq, Repr

/-- A raw stream event surfaced by the Worker Runtime adapter. The
`blocks` payload of an assistant message keeps, per block, `some text`
for a text block and `none` for a non-text block (only text blocks
contribute to `extractContentFromMessage`). -/
inductive StreamEvent where
  | result (subtype : Option String) (res : Option String)
      (permission_denials : List RawDenial)
  | assistant (message : Option MessageContent)
  | contentBlockStart (content_block : Option ContentBlock)
  | contentBlockDelta (delta : Option DeltaBlock)
  | toolResult (content : Option String) (output : Option String)
  | system (subtype : Option String) (content : Option String) (output : Option String)
  | otherEvent
  deriving DecidableEq, Repr

/-- Source `SessionManager.extractContentFromMessage`: a string content is taken
as is; an array keeps the text blocks joined by newlines; anything else
yields `''`. -/
def extractContentFromMessage : MessageContent → String
  | .str s => s
  | .blocks bs => String.intercalate "\n" (bs.filterMap id)
  | .otherContent => ""

/-- Source `SessionManager.parseStreamEvent`: maps a raw stream event to at most
one `SessionMessage`, exactly following the branch order of the source. -/
def parseStreamEvent : StreamEvent → Option SessionMessage
  | .result _ _ _ => none
  | .assistant none => none
  | .assistant (some mc) =>
      let content := extractContentFromMessage mc
      if content = "" then none else some ⟨.assistant, content, none⟩
  | .contentBlockStart none => none
  | .contentBlockStart (some b) =>
      match b with
      | .thinking t => if t = "" then none else some ⟨.thinking, t, none⟩
      | .toolUse name id input =>
          some ⟨.toolUse, jsOr name "tool", some ⟨name, id, input⟩⟩
      | .text t => if t = "" then none else some ⟨.assistant, t, none⟩
      | .otherBlock => none
  | .contentBlockDelta none => none
  | .contentBlockDelta (some d) =>
      match d with
      | .thinkingDelta t => if t = "" then none else some ⟨.thinking, t, none⟩
      | .textDelta t => if t = "" then none else some ⟨.assistant, t, none⟩
      | .inputJsonDelta _ => none
      | .otherDelta => none
  | .toolResult content output =>
      some ⟨.toolResult, jsOr content (jsOr output ""), none⟩
  | .system subtype content output =>
      if subtype = some "tool_result" then
        some ⟨.toolResult, jsOr content (jsOr output ""), none⟩
      else
        some ⟨.system, jsOr content "", none⟩
  | .otherEvent => none

/-- An `AgentSession` as owned by the SessionManager (timestamps omitted). -/
structure Session where
  agentId : String
  taskId : String
  status : SessionStatus
  messages : List SessionMessage
  pendingPermissions : Option (List PendingPermission)
  deriving DecidableEq, Repr

/-- Events published on the bus by the SessionManager while handling a
stream event or ending a session. -/
inductive SMEvent where
  | sessionMessage (m : SessionMessage)
  | statusChanged (st : SessionStatus)
  | permissionRequested (toolName : String) (toolInput : String)
  | sessionEnded (st : SessionStatus)
  deriving DecidableEq, Repr

/-- The case-insensitive key used to deduplicate and look up tool names. -/
def lowName (p : PendingPermission) : String :=
  jsToLower p.toolName

/-- The dedup loop of `handleStreamEvent`: walk the denials keeping the
first entry per lowercased tool name (`seenTools` accumulates the names
already kept). -/
def dedupDenialsAux (seen : List String) : List PendingPermission → List PendingPermission
  | [] => []
  | d :: rest =>
      if lowName d ∈ seen then dedupDenialsAux seen rest
      else d :: dedupDenialsAux (lowName d :: seen) rest

/-- Deduplicate denials case-insensitively by tool name, keeping first
occurrences. -/
def dedupDenials (ds : List PendingPermission) : List PendingPermission :=
  dedupDenialsAux [] ds

/-- Source `SessionManager.endSession(sessionId, status)` on one session: ignored
if the session is already `completed` or `error` (double-end protection);
otherwise sets the status and publishes `session_status_changed` and
`session_ended`. (The `agentSessionMap` cleanup lives in the composed
system model below.) -/
def endSession (s : Session) (status : SessionStatus) : Session × List SMEvent :=
  if s.status = .completed ∨ s.status = .error then (s, [])
  else ({ s with status := status }, [.statusChanged status, .sessionEnded status])

/-- Source `SessionManager.handleStreamEvent` on one session. For a terminal
`result` event (`subtype` one of `close`/`success`/`error`): first append
the `result` text as a final assistant message if no assistant message was
streamed; then, if the event carries a non-empty `permission_denials`
list, deduplicate it, store it in `pendingPermissions`, move the session
to `waiting_input` and publish one `permission_requested` per unique
tool — without ending the session; otherwise, if the session is already
`waiting_input`, do nothing more; otherwise end the session (`error` for
subtype `error`, else `completed`). Every other event is parsed into at
most one `SessionMessage`. -/
def handleStreamEvent (s : Session) (e : StreamEvent) : Session × List SMEvent :=
  match e with
  | .result subtype res denials =>
      if subtype = some "close" ∨ subtype = some "success" ∨ subtype = some "error" then
        let hasAssistant := s.messages.any (fun m => m.type = .assistant)
        let appended : Option SessionMessage :=
          match res with
          | some r => if r ≠ "" ∧ ¬hasAssistant then some ⟨.assistant, r, none⟩ else none
          | none => none
        let s₁ :=
          match appended with
          | some m => { s with messages := s.messages ++ [m] }
          | none => s
        let ev₁ : List SMEvent :=
          match appended with
          | some m => [.sessionMessage m]
          | none => []
        if denials ≠ [] then
          let uniques := dedupDenials (denials.map toPendingPermission)
          ({ s₁ with pendingPermissions := some uniques, status := .waitingInput },
           ev₁ ++ [.statusChanged .waitingInput]
               ++ uniques.map (fun d => .permissionRequested d.toolName d.toolInput))
        else if s₁.status = .waitingInput then (s₁, ev₁)
        else
          let finalStatus := if subtype = some "error" then SessionStatus.error else .completed
          let r := endSession s₁ finalStatus
          (r.1, ev₁ ++ r.2)
      else (s, [])
  | _ =>
      match parseStreamEvent e with
      | some m => ({ s with messages := s.messages ++ [m] }, [.sessionMessage m])
      | none => (s, [])

/-- Source `SessionManager.approvePermission(sessionId, toolName)` on one session:
if there is no `pendingPermissions` list, return the input name and
`allApproved = true`; otherwise look up case-insensitively, resolve to the
stored (canonically cased) name, remove every entry with that lowercased
name, and report `allApproved` iff the remainder is empty. -/
def approvePermission (s : Session) (toolName : String) :
    Session × String × Bool :=
  match s.pendingPermissions with
  | none => (s, toolName, true)
  | some ps =>
      let lower := jsToLower toolName
      let mtch := ps.find? (fun p => lowName p = lower)
      let resolved :=
        match mtch with
        | some p => if p.toolName = "" then toolName else p.toolName
        | none => toolName
      let remaining := ps.filter (fun p => lowName p ≠ lower)
      ({ s with pendingPermissions := some remaining }, resolved, remaining.isEmpty)

/-- Source `SessionManager.denyPermission(sessionId)`: ends the session in
`completed`. -/
def denyPermission (s : Session) : Session × List SMEvent :=
  endSession s .completed

/-! ## AdversaryAgent (`AdversaryAgent` class of the source)

The adversary's control decisions are embedded as pure functions from the
data they inspect (goal, plan, the Oracle's response, the retry counter) to
an action describing the state change they perform. Oracle responses carry
`content`/`error`; where the source parses `content` with the lenient
`extractJSON` helper (whose core is the platform built-in `JSON.parse`),
the parse outcome is an `Option`-typed input of the decision function. -/

/-- An Oracle response: `ILLMClient.complete` resolves with
`content` and an optional `error` (it never throws). -/
structure LLMResponse where
  content : String
  error : Option String
  deriving DecidableEq, Repr

/-- Source `const NEEDS_INPUT_MARKER = '[NEEDS_INPUT]:'` (as a character list). -/
def NEEDS_INPUT_MARKER : List Char := "[NEEDS_INPUT]:".data

/-- The start indices at which the marker occurs in `s` (ascending). -/
def markerOccurrences (s : List Char) : List Nat :=
  (List.range (s.length + 1)).filter (fun i => NEEDS_INPUT_MARKER.isPrefixOf (s.drop i))

/-- JS `result.lastIndexOf(NEEDS_INPUT_MARKER)`: the largest start index of
an occurrence, `none` standing for `-1`. -/
def lastMarkerIndex (s : List Char) : Option Nat :=
  (markerOccurrences s).getLast?

/-- JS `String.prototype.trim()` on a character list. -/
def jsTrim (s : List Char) : List Char :=
  ((s.dropWhile Char.isWhitespace).reverse.dropWhile Char.isWhitespace).reverse

/-- Source `AdversaryAgent.extractNeedsInput(result)`: `null` when the marker does
not occur; otherwise the trimmed text following the *last* occurrence. -/
def extractNeedsInput (result : List Char) : Option (List Char) :=
  match lastMarkerIndex result with
  | none => none
  | some idx => some (jsTrim (result.drop (idx + NEEDS_INPUT_MARKER.length)))

/-- The routing gate of the `session_ended` listener for a completed step
task: `const needsInput = this.extractNeedsInput(result); if (needsInput)`
routes to `tryAnswerOrEscalate` — note JS falsiness of both `null` and the
empty string. -/
def routesToNeedsInput (result : List Char) : Bool :=
  match extractNeedsInput result with
  | none => false
  | some q => q ≠ []

/-- Source `AdversaryAgent.craftWorkerInstruction`, error path: on an Oracle error
or empty content the instruction falls back to the step's description,
otherwise it is the Oracle's content. -/
def craftWorkerInstruction (response : LLMResponse) (stepDescription : String) : String :=
  if jsTruthy response.error ∨ response.content = "" then stepDescription
  else response.content

/-- The plan object produced by `parsePlanFromResult` (from either the
object-with-steps or the bare-array shape). -/
structure ParsedPlan where
  reasoning : String
  steps : List String
  recurring : Bool
  intervalMinutes : Option Int
  cycleGoal : Option String
  completionCriteria : Option String
  deriving DecidableEq, Repr

/-- Outcome of `AdversaryAgent.generatePlan` after the Oracle call. -/
inductive PlanDecision where
  /-- Source `updateGoal(goalId, status: 'failed')` and release the goal. -/
  | failGoal
  /-- Source `GoalManager.setPlan(...)` then `executeNextStep(goalId)`. -/
  | setPlanAndExecute (plan : ParsedPlan)
  deriving DecidableEq, Repr

/-- The decision tail of `AdversaryAgent.generatePlan`: an Oracle `error`
fails the goal; otherwise the parsed plan (the outcome of
`parsePlanFromResult` on the content, taken as an input) is stored and
execution proceeds if it exists with at least one step, else the goal
fails. -/
def generatePlanDecision (response : LLMResponse) (parsed : Option ParsedPlan) :
    PlanDecision :=
  if jsTruthy response.error then .failGoal
  else
    match parsed with
    | some plan => if plan.steps.length > 0 then .setPlanAndExecute plan else .failGoal
    | none => .failGoal

/-- The object produced by `extractJSON` on a verdict-evaluation response
(fields may be absent). -/
structure ParsedVerdict where
  verdict : Option String
  refined_instruction : Option String
  escalation_question : Option String
  deriving DecidableEq, Repr

/-- Outcome of `AdversaryAgent.evaluateStepResult` for a completed step. -/
inductive EvalAction where
  /-- delete from `retryMap`; mark the step `completed` with the result;
  `refinePlan`; `evaluateAndContinue`. -/
  | pass
  /-- store the new retry count, reset the step to `pending`, re-execute
  with the given instruction. -/
  | retry (newRetryCount : Nat) (instruction : String)
  /-- delete from `retryMap`; route to `tryAnswerOrEscalate` with the
  given question. -/
  | escalate (question : String)
  deriving DecidableEq, Repr

/-- The default escalation question used when the verdict carries none. -/
def defaultEscalationQuestion (stepOrder : Nat) (stepDescription : String)
    (retryCount : Nat) : String :=
  "Step " ++ toString (stepOrder + 1) ++ " \"" ++ stepDescription ++
    "\" needs your input after " ++ toString (retryCount + 1) ++
    " attempt(s). How should we proceed?"

/-- The verdict-application tail of `AdversaryAgent.evaluateStepResult`:
`verdict` defaults to `'PASS'` when the content is empty, unparseable, or
lacks a verdict field; `'RETRY'` with `retryCount < 2` re-executes with the
refined instruction (falling back to the step description); everything
else (including exhausted retries) escalates with the verdict's
`escalation_question` or a default question. -/
def evaluateStepDecision (response : LLMResponse) (parsed : Option ParsedVerdict)
    (retryCount : Nat) (stepOrder : Nat) (stepDescription : String) : EvalAction :=
  let fields : String × String × String :=
    if response.content = "" then ("PASS", "", "")
    else
      match parsed with
      | none => ("PASS", "", "")
      | some p =>
          (jsOr p.verdict "PASS", jsOr p.refined_instruction "",
           jsOr p.escalation_question "")
  let verdict := fields.1
  let refinedInstruction := fields.2.1
  let escalationQuestion := fields.2.2
  if verdict = "PASS" then .pass
  else if verdict = "RETRY" ∧ retryCount < 2 then
    .retry (retryCount + 1)
      (if refinedInstruction = "" then stepDescription else refinedInstruction)
  else
    .escalate
      (if escalationQuestion = "" then
        defaultEscalationQuestion stepOrder stepDescription retryCount
      else escalationQuestion)

/-- Actions the adversary's continuation logic can take on a goal. -/
inductive AdvAction where
  /-- Source `executeStepWithInstruction` on the given step. -/
  | dispatch (stepId : Nat) (instruction : String)
  /-- Source `updateGoal(goalId, status: 'completed')` and release the goal. -/
  | completeGoal
  /-- release the goal from `activeGoals`, leaving its status unchanged. -/
  | release
  /-- Source `generatePlan(goalId)` — re-enter the planning phase. -/
  | replan
  deriving DecidableEq, Repr

/-- The settlement branch of `AdversaryAgent.executeNextStep` taken when
`getNextPendingStep` finds nothing: goal completion counts steps in
`completed` **or** `skipped` (`allCompleted`); a recurring plan leaves the
goal active; otherwise re-plan. -/
def executeNextStepSettle (plan : GMPlan) : AdvAction :=
  if plan.steps.all (fun s => s.status = .completed ∨ s.status = .skipped) then
    if plan.recurring then .release else .completeGoal
  else .replan

/-- The settlement branch of `AdversaryAgent.evaluateAndContinue` taken
when `getNextPendingStep` finds nothing: blocked steps park the goal; goal
completion requires `failed = 0` and *every* step `completed` (skipped
steps do not count here); re-planning requires at least one failure and
`completed + failed` exhausting the plan; anything else merely releases
the goal. -/
def evaluateAndContinueSettle (plan : GMPlan) : AdvAction :=
  let failed := plan.steps.filter (fun s => s.status = .failed)
  let completed := plan.steps.filter (fun s => s.status = .completed)
  let blocked := plan.steps.filter (fun s => s.status = .blocked)
  if blocked.length > 0 then .release
  else if failed.length = 0 ∧ completed.length = plan.steps.length then
    if plan.recurring then .release else .completeGoal
  else if failed.length > 0 ∧ completed.length + failed.length = plan.steps.length then
    .replan
  else .release

/-- Source `AdversaryAgent.executeNextStep`: guards (goal active, agent exists,
plan exists), then either dispatches the next pending step with the
crafted instruction or settles the plan. -/
def executeNextStepAction (goalStatus : GoalStatus) (agentExists : Bool)
    (plan : Option GMPlan) (craftResponse : LLMResponse) : AdvAction :=
  if goalStatus ≠ .active then .release
  else if ¬agentExists then .release
  else
    match plan with
    | none => .release
    | some plan =>
        match nextPendingStep plan.steps with
        | none => executeNextStepSettle plan
        | some step => .dispatch step.id (craftWorkerInstruction craftResponse step.description)

/-! ## NodeAdapter process management (`src/control/NodeAdapter.ts`)

`spawnSessionProcess` registers the freshly spawned subprocess in
`sessionProcesses` and installs stdout/stderr/close/error listeners that
each bail out when `this.sessionProcesses.get(sessionId) !== claude`, i.e.
when the process has been superseded. Subprocess identity is modelled by a
fresh natural number per spawn (JS object identity guarantees exactly
distinctness). The byte-level line buffering of stdout is abstracted: a
stdout occurrence carries the already-split parsed events of one data
chunk, and a close occurrence carries the optional flushed buffered event;
the suppression guards — the object of claim C8 — are modelled exactly. -/

/-- NodeAdapter process-management state: the current process per
session-id, a fresh-pid counter, and each process's `hasErrored` flag. -/
structure NAState where
  sessionProcesses : String → Option Nat
  counter : Nat
  hasErrored : Nat → Bool

/-- Source `spawnSessionProcess(sessionId, ...)`: register a fresh process for
the session (superseding any previous registration). -/
def NAState.spawn (st : NAState) (sid : String) : NAState :=
  { st with
      sessionProcesses := fun s => if s = sid then some st.counter else st.sessionProcesses s
      counter := st.counter + 1 }

/-- Occurrences at the NodeAdapter: its public operations plus the
listener invocations of a given subprocess (identified by its pid). -/
inductive NAOp where
  /-- Source `startSession`: spawn a fresh process for the session-id. -/
  | startSession (sid : String)
  /-- Source `sendToSession` (resume): kill and deregister the existing process,
  then spawn a fresh one for the same session-id. -/
  | sendToSession (sid : String)
  /-- Source `stopSession`: kill and deregister the process, if any. -/
  | stopSession (sid : String)
  /-- a stdout `data` callback of process `pid`, carrying the parsed
  events of the chunk's complete lines. -/
  | procStdout (sid : String) (pid : Nat) (events : List StreamEvent)
  /-- a stderr `data` callback of process `pid`. -/
  | procStderr (sid : String) (pid : Nat) (chunk : String)
  /-- the `close` callback of process `pid`, with the exit code and the
  event parsed from the flushed line buffer, if any. -/
  | procClose (sid : String) (pid : Nat) (exitCode : Option Int) (flushed : Option StreamEvent)
  /-- the `error` callback of process `pid`. -/
  | procError (sid : String) (pid : Nat)
  deriving DecidableEq, Repr

/-- One step of the NodeAdapter: the next state and the
`session-event` emissions (`(sessionId, event)` pairs). Each listener
first checks `isSuperseded()` and emits nothing if its process is no
longer the registered one. -/
def NAState.step (st : NAState) (op : NAOp) : NAState × List (String × StreamEvent) :=
  match op with
  | .startSession sid => (st.spawn sid, [])
  | .sendToSession sid =>
      let st₁ :=
        if (st.sessionProcesses sid).isSome then
          { st with sessionProcesses := fun s => if s = sid then none else st.sessionProcesses s }
        else st
      (st₁.spawn sid, [])
  | .stopSession sid =>
      if (st.sessionProcesses sid).isSome then
        ({ st with sessionProcesses := fun s => if s = sid then none else st.sessionProcesses s }, [])
      else (st, [])
  | .procStdout sid pid events =>
      if st.sessionProcesses sid = some pid then (st, events.map (fun e => (sid, e)))
      else (st, [])
  | .procStderr sid pid chunk =>
      if st.sessionProcesses sid = some pid then
        (st, [(sid, .system (some "stderr") (some chunk) none)])
      else (st, [])
  | .procClose sid pid exitCode flushed =>
      if st.sessionProcesses sid = some pid then
        if st.hasErrored pid then (st, [])
        else
          let flushEv : List (String × StreamEvent) :=
            match flushed with
            | some e => [(sid, e)]
            | none => []
          let subtype :=
            match exitCode with
            | some c => if c ≠ 0 then "error" else "close"
            | none => "close"
          ({ st with sessionProcesses := fun s => if s = sid then none else st.sessionProcesses s },
           flushEv ++ [(sid, .result (some subtype) none [])])
      else (st, [])
  | .procError sid pid =>
      if st.sessionProcesses sid = some pid then
        ({ st with
            sessionProcesses := fun s => if s = sid then none else st.sessionProcesses s
            hasErrored := fun q => if q = pid then true else st.hasErrored q },
         [(sid, .result (some "error") none [])])
      else (st, [])

/-- Run a sequence of occurrences, recording each occurrence's emissions. -/
def NAState.run (st : NAState) : List NAOp → NAState × List (NAOp × List (String × StreamEvent))
  | [] => (st, [])
  | op :: ops =>
      let r := st.step op
      let rr := r.1.run ops
      (rr.1, (op, r.2) :: rr.2)

/-- Well-formedness of the NodeAdapter state: every registered pid was
drawn from the counter. Holds for the initial state and is preserved by
every step. -/
def NAInv (st : NAState) : Prop :=
  ∀ sid pid, st.sessionProcesses sid = some pid → pid < st.counter

/-- The initial NodeAdapter state: no processes spawned yet. -/
def NAState.init : NAState :=
  { sessionProcesses := fun _ => none, counter := 0, hasErrored := fun _ => false }

/-- Whether an occurrence is a listener invocation of process `p` spawned
for session `sid`. -/
def NAOp.isFrom (op : NAOp) (sid : String) (p : Nat) : Bool :=
  match op with
  | .procStdout s q _ => s = sid ∧ q = p
  | .procStderr s q _ => s = sid ∧ q = p
  | .procClose s q _ _ => s = sid ∧ q = p
  | .procError s q => s = sid ∧ q = p
  | _ => false

/-! ## Bridge ∘ SessionManager composed model (`ClaudeCodeBridge` of the
source)

The Bridge owns the SessionManager, the `activeExecutions` single-flight
map and the `session_ended` cleanup listener. Each public operation is
modelled atomically, with the synchronous event-bus cascade (the
SessionManager's `agentSessionMap` cleanup in `endSession` and the
Bridge's listener clearing `activeExecutions`) folded into the operation
that triggers it. Session-ids are drawn from a fresh counter. -/

/-- Statuses `active | starting | waiting_input` — those that make a session
count as running for an agent. -/
def liveStatus (st : SessionStatus) : Bool :=
  st = .active ∨ st = .starting ∨ st = .waitingInput

/-- Composed system state: the SessionManager's `sessions` and
`agentSessionMap`, the Bridge's `activeExecutions`
(`Map.get(agentId) || false`), and the fresh session-id counter. -/
structure SysState where
  sessions : Nat → Option Session
  agentSessionMap : String → Option Nat
  activeExecutions : String → Bool
  nextSessionId : Nat

/-- Source `SessionManager.getActiveSessionForAgent(agentId)`. -/
def SysState.getActiveSessionForAgent (st : SysState) (agentId : String) :
    Option (Nat × Session) :=
  match st.agentSessionMap agentId with
  | none => none
  | some sid =>
      match st.sessions sid with
      | some s => if liveStatus s.status then some (sid, s) else none
      | none => none

/-- Source `SessionManager.startSession(...)`: allocate the session (reaching
`active` once the spawn resolves) and point `agentSessionMap` at it. -/
def SysState.startSession (st : SysState) (agentId taskId : String) : SysState × Nat :=
  let sid := st.nextSessionId
  ({ st with
      sessions := fun i => if i = sid then
        some { agentId := agentId, taskId := taskId, status := .active,
               messages := [], pendingPermissions := none }
        else st.sessions i
      agentSessionMap := fun a => if a = agentId then some sid else st.agentSessionMap a
      nextSessionId := sid + 1 }, sid)

/-- Source `SessionManager.sendMessage(sessionId, message, ...)`: append the user
message to the transcript and set the session `active`. -/
def SysState.sendMessage (st : SysState) (sid : Nat) (message : String) : SysState :=
  match st.sessions sid with
  | none => st
  | some s =>
      { st with
          sessions := fun i => if i = sid then
            some { s with messages := s.messages ++ [⟨.user, message, none⟩], status := .active }
            else st.sessions i }

/-- Whether a published event is a `session_ended`. -/
def isSessionEndedEv : SMEvent → Bool
  | .sessionEnded _ => true
  | _ => false

/-- Apply a session-level result (new session plus emitted events) at a
session-id, running the synchronous `session_ended` cascade: `endSession`
clears `agentSessionMap`, and the Bridge's listener clears
`activeExecutions` unless the session is parked in `waiting_input`. -/
def SysState.applySessionResult (st : SysState) (sid : Nat) (agentId : String)
    (r : Session × List SMEvent) : SysState :=
  let st₁ := { st with sessions := fun i => if i = sid then some r.1 else st.sessions i }
  if r.2.any isSessionEndedEv then
    let st₂ := { st₁ with
      agentSessionMap := fun a => if a = agentId then none else st₁.agentSessionMap a }
    if r.1.status = .waitingInput then st₂
    else { st₂ with
      activeExecutions := fun a => if a = agentId then false else st₂.activeExecutions a }
  else st₁

/-- Source `ClaudeCodeBridge.executeTask(agentId, taskId, ...)`: refuse when the
single-flight guard is set; otherwise set it and start a session. (The
agent and task are assumed to exist; a missing one returns before the
guard is touched, i.e. behaves as the refusal branch.) -/
def SysState.executeTask (st : SysState) (agentId taskId : String) : SysState :=
  if st.activeExecutions agentId then st
  else
    let st₁ := { st with
      activeExecutions := fun a => if a = agentId then true else st.activeExecutions a }
    (st₁.startSession agentId taskId).1

/-- Source `ClaudeCodeBridge.startConversation(agentId, message, context)`: send
into the agent's active session if one exists, else start a fresh session
with the pseudo task-id `conversation` — without touching
`activeExecutions`. -/
def SysState.startConversation (st : SysState) (agentId message : String) : SysState :=
  match st.getActiveSessionForAgent agentId with
  | some (sid, _) => st.sendMessage sid message
  | none => (st.startSession agentId "conversation").1

/-- Delivery of one runtime stream event to the SessionManager
(`handleStreamEvent`), with the `session_ended` cascade. Events for
unknown sessions are silently ignored. -/
def SysState.deliverStreamEvent (st : SysState) (sid : Nat) (e : StreamEvent) : SysState :=
  match st.sessions sid with
  | none => st
  | some s => st.applySessionResult sid s.agentId (handleStreamEvent s e)

/-- Source `ClaudeCodeBridge.approveToolPermission(agentId, toolName)`: resolve
against the active session's pending permissions; once all are approved,
`resumeSession` reactivates the session and re-registers the agent
mapping. Without an active session only the agent's tool set is touched
(outside this model). -/
def SysState.approveToolPermission (st : SysState) (agentId toolName : String) : SysState :=
  match st.getActiveSessionForAgent agentId with
  | none => st
  | some (sid, s) =>
      let r := approvePermission s toolName
      let st₁ := { st with sessions := fun i => if i = sid then some r.1 else st.sessions i }
      if r.2.2 then
        { st₁ with
            sessions := fun i => if i = sid then
              some { r.1 with status := .active, pendingPermissions := none }
              else st₁.sessions i
            agentSessionMap := fun a => if a = s.agentId then some sid else st₁.agentSessionMap a }
      else st₁

/-- Source `ClaudeCodeBridge.denyToolPermission(agentId)`:
`SessionManager.denyPermission` on the active session. -/
def SysState.denyToolPermission (st : SysState) (agentId : String) : SysState :=
  match st.getActiveSessionForAgent agentId with
  | none => st
  | some (sid, s) => st.applySessionResult sid s.agentId (denyPermission s)

/-- Source `ClaudeCodeBridge.cancelExecution(agentId)`: stop the active session
(ending it in `error`) and clear the single-flight guard; the legacy
fallback path reports failure in the TUI runtime and changes nothing. -/
def SysState.cancelExecution (st : SysState) (agentId : String) : SysState :=
  match st.getActiveSessionForAgent agentId with
  | none => st
  | some (sid, s) =>
      let st₁ := st.applySessionResult sid s.agentId (endSession s .error)
      { st₁ with
          activeExecutions := fun a => if a = agentId then false else st₁.activeExecutions a }

/-- The public operations of the composed system. -/
inductive SysOp where
  | executeTask (agentId taskId : String)
  | startConversation (agentId message : String)
  | streamEvent (sid : Nat) (e : StreamEvent)
  | approveTool (agentId toolName : String)
  | denyTool (agentId : String)
  | cancel (agentId : String)
  deriving DecidableEq, Repr

/-- One step of the composed system. -/
def SysState.stepOp (st : SysState) : SysOp → SysState
  | .executeTask agentId taskId => st.executeTask agentId taskId
  | .startConversation agentId message => st.startConversation agentId message
  | .streamEvent sid e => st.deliverStreamEvent sid e
  | .approveTool agentId toolName => st.approveToolPermission agentId toolName
  | .denyTool agentId => st.denyToolPermission agentId
  | .cancel agentId => st.cancelExecution agentId

/-- Run a sequence of operations. -/
def SysState.runOps (st : SysState) (ops : List SysOp) : SysState :=
  ops.foldl SysState.stepOp st

/-- The initial composed state: no sessions, no mappings, no guards. -/
def SysState.init : SysState :=
  { sessions := fun _ => none
    agentSessionMap := fun _ => none
    activeExecutions := fun _ => false
    nextSessionId := 0 }

/-! # Theorems -/

/-! ## C1 — goal settlement when no pending step remains -/

/-- C1 (code evaluation at the failing input): the two settlement paths
disagree on plans containing skipped steps. For a non-recurring plan with
steps `[completed, skipped]`, `evaluateAndContinue` merely releases the
goal (leaving it `active`) while `executeNextStep` marks it `completed` as
the claim states; for `[failed, skipped]`, `evaluateAndContinue` does not
re-plan while `executeNextStep` does. -/
theorem c1_skipped_step_divergence :
    let stepDone : GMStep :=
      { id := 0
        goalId := "g"
        description := "profile queries"
        status := .completed
        taskId := none
        result := some "profiled"
        question := none
        order := 0
        createdAt := 0
        completedAt := some 0 }
    let stepSkip : GMStep :=
      { stepDone with id := 1, order := 1, status := .skipped, result := none }
    let stepFail : GMStep := { stepDone with status := .failed }
    let planCS : GMPlan :=
      { id := 0
        goalId := "g"
        agentId := "a"
        steps := [stepDone, stepSkip]
        version := 1
        reasoning := ""
        recurring := false
        intervalMinutes := none
        cycleGoal := none
        completionCriteria := none
        createdAt := 0
        updatedAt := 0 }
    let planFS : GMPlan := { planCS with steps := [stepFail, stepSkip] }
    (evaluateAndContinueSettle planCS = .release ∧
       executeNextStepSettle planCS = .completeGoal) ∧
    (evaluateAndContinueSettle planFS = .release ∧
       executeNextStepSettle planFS = .replan) := by decide

/-! ## C2 — Oracle error handling in planning, crafting, evaluation -/

/-- A concrete one-pending-step plan used to exercise the crafting error
path of C2. -/
def c2PendingStep : GMStep :=
  { id := 7
    goalId := "g"
    description := "Do the step"
    status := .pending
    taskId := none
    result := none
    question := none
    order := 0
    createdAt := 0
    completedAt := none }

/-- The plan holding `c2PendingStep` as its only step. -/
def c2PlanOneStep : GMPlan :=
  { id := 1
    goalId := "g"
    agentId := "a"
    steps := [c2PendingStep]
    version := 1
    reasoning := ""
    recurring := false
    intervalMinutes := none
    cycleGoal := none
    completionCriteria := none
    createdAt := 0
    updatedAt := 0 }

/-- C2 (counterexample): an Oracle error while crafting a worker
instruction does **not** fail the goal — `craftWorkerInstruction` falls
back to the step's description and `executeNextStep` dispatches the step
with that fallback instruction. -/
theorem c2_crafting_error_counterexample :
    craftWorkerInstruction { content := "", error := some "Oracle unavailable" }
        "Do the step" = "Do the step" ∧
    executeNextStepAction .active true (some c2PlanOneStep)
        { content := "", error := some "Oracle unavailable" }
      = .dispatch 7 "Do the step" := by decide

/-- C2 (amended): an Oracle error during planning fails the goal; an
Oracle error (or empty content) while crafting a worker instruction falls
back to the step's description and the step is still dispatched (the goal
does not fail); an unparseable verdict-evaluation response defaults to
PASS. -/
theorem c2_oracle_error_handling :
    (∀ (resp : LLMResponse) (parsed : Option ParsedPlan),
        jsTruthy resp.error = true → generatePlanDecision resp parsed = .failGoal)
    ∧ (∀ (resp : LLMResponse) (sd : String),
        jsTruthy resp.error = true → craftWorkerInstruction resp sd = sd)
    ∧ (∀ (plan : GMPlan) (step : GMStep) (resp : LLMResponse),
        nextPendingStep plan.steps = some step → jsTruthy resp.error = true →
        executeNextStepAction .active true (some plan) resp =
          .dispatch step.id step.description)
    ∧ (∀ (resp : LLMResponse) (rc so : Nat) (sd : String),
        evaluateStepDecision resp none rc so sd = .pass) := by
  refine ⟨?_, ?_, ?_, ?_⟩
  · intro resp parsed h
    simp [generatePlanDecision, h]
  · intro resp sd h
    simp [craftWorkerInstruction, h]
  · intro plan step resp hn he
    simp [executeNextStepAction, hn, craftWorkerInstruction, he]
  · intro resp rc so sd
    by_cases hc : resp.content = "" <;> simp [evaluateStepDecision, hc]

/-- C2 (witness): the amended theorem applied at concrete inputs. -/
theorem c2_oracle_error_handling_witness :
    generatePlanDecision { content := "", error := some "boom" } none = .failGoal ∧
    craftWorkerInstruction { content := "", error := some "boom" } "d" = "d" ∧
    executeNextStepAction .active true (some c2PlanOneStep)
        { content := "", error := some "boom" }
      = .dispatch c2PendingStep.id c2PendingStep.description ∧
    evaluateStepDecision { content := "not json", error := none } none 0 0 "d" = .pass := by
  refine ⟨?_, ?_, ?_, ?_⟩
  · exact c2_oracle_error_handling.1 { content := "", error := some "boom" } none (by decide)
  · exact c2_oracle_error_handling.2.1 { content := "", error := some "boom" } "d" (by decide)
  · exact c2_oracle_error_handling.2.2.1 c2PlanOneStep c2PendingStep
      { content := "", error := some "boom" } (by decide) (by decide)
  · exact c2_oracle_error_handling.2.2.2 { content := "not json", error := none } 0 0 "d"

/-! ## C4 — RETRY/ESCALATE policy and the attempt cap -/

/-- C4: a RETRY verdict with fewer than two recorded retries increments
the count and re-executes with the refined instruction (falling back to
the step description when none is given); any retry decision stores a
count of at most 2, capping total attempts at 3; an ESCALATE verdict, or a
RETRY with retries exhausted, escalates with the verdict's
`escalation_question` or the default question. -/
theorem c4_retry_escalate_policy :
    (∀ (resp : LLMResponse) (p : ParsedVerdict) (rc so : Nat) (sd : String),
        resp.content ≠ "" → p.verdict = some "RETRY" → rc < 2 →
        evaluateStepDecision resp (some p) rc so sd =
          .retry (rc + 1) (jsOr p.refined_instruction sd))
    ∧ (∀ (resp : LLMResponse) (parsed : Option ParsedVerdict) (rc so : Nat)
         (sd instr : String) (n : Nat),
        evaluateStepDecision resp parsed rc so sd = .retry n instr →
        n = rc + 1 ∧ rc < 2 ∧ n ≤ 2)
    ∧ (∀ (resp : LLMResponse) (p : ParsedVerdict) (rc so : Nat) (sd : String),
        resp.content ≠ "" → p.verdict = some "ESCALATE" →
        evaluateStepDecision resp (some p) rc so sd =
          .escalate (jsOr p.escalation_question (defaultEscalationQuestion so sd rc)))
    ∧ (∀ (resp : LLMResponse) (p : ParsedVerdict) (rc so : Nat) (sd : String),
        resp.content ≠ "" → p.verdict = some "RETRY" → 2 ≤ rc →
        evaluateStepDecision resp (some p) rc so sd =
          .escalate (jsOr p.escalation_question (defaultEscalationQuestion so sd rc))) := by
  refine ⟨?_, ?_, ?_, ?_⟩
  · intro resp p rc so sd hc hv hrc
    cases hri : p.refined_instruction with
    | none => simp [evaluateStepDecision, hc, hv, hri, jsOr, hrc]
    | some r =>
        by_cases hr : r = "" <;>
          simp [evaluateStepDecision, hc, hv, hri, jsOr, hrc, hr]
  · intro resp parsed rc so sd instr n h
    unfold evaluateStepDecision at h
    split at h
    · simp at h
    · split at h
      · simp at h
      · dsimp only at h
        split at h
        · simp at h
        · split at h
          · rename_i hcond
            injection h with h₁ h₂
            exact ⟨h₁.symm, hcond.2, by omega⟩
          · simp at h
  · intro resp p rc so sd hc hv
    cases heq : p.escalation_question with
    | none => simp [evaluateStepDecision, hc, hv, heq, jsOr]
    | some q =>
        by_cases hq : q = "" <;>
          simp [evaluateStepDecision, hc, hv, heq, jsOr, hq]
  · intro resp p rc so sd hc hv hrc
    have hnl : ¬ rc < 2 := by omega
    cases heq : p.escalation_question with
    | none => simp [evaluateStepDecision, hc, hv, heq, jsOr, hnl]
    | some q =>
        by_cases hq : q = "" <;>
          simp [evaluateStepDecision, hc, hv, heq, jsOr, hnl, hq]

/-! ## C5 — preference upserts never lower confidence -/

/-- Unfolding `addPreferenceList` past an entry with a different key. -/
theorem addPreferenceList_cons_ne (fid now : Nat) (aid : String) (pref : PrefInput)
    (x : AgentPreference) (l : List AgentPreference) (h : x.key ≠ pref.key) :
    addPreferenceList fid now aid pref (x :: l) =
      (x :: (addPreferenceList fid now aid pref l).1,
       (addPreferenceList fid now aid pref l).2) := by
  simp [addPreferenceList, h]

/-- Applying `addPreferenceList` at the first entry matching the key: the entry is
overwritten iff the new confidence rank is at least the stored one. -/
theorem addPreferenceList_found (fid now : Nat) (aid : String) (pref : PrefInput)
    (l₁ l₂ : List AgentPreference) (p₀ : AgentPreference)
    (h₁ : ∀ p ∈ l₁, p.key ≠ pref.key) (h₀ : p₀.key = pref.key) :
    (addPreferenceList fid now aid pref (l₁ ++ p₀ :: l₂)).1 =
      if p₀.confidence.rank ≤ pref.confidence.rank
      then l₁ ++ applyPrefUpdate p₀ pref :: l₂
      else l₁ ++ p₀ :: l₂ := by
  induction l₁ with
  | nil =>
      by_cases hr : p₀.confidence.rank ≤ pref.confidence.rank <;>
        simp [addPreferenceList, h₀, hr]
  | cons x l₁ ih =>
      have hx : x.key ≠ pref.key := h₁ x (List.mem_cons_self x l₁)
      have ih' := ih (fun p hp => h₁ p (List.mem_cons_of_mem x hp))
      by_cases hr : p₀.confidence.rank ≤ pref.confidence.rank <;>
        simp [addPreferenceList_cons_ne _ _ _ _ _ _ hx, ih', hr]

/-- Unfolding `addPreferenceList` at a matching entry whose confidence is
not above the incoming one: the entry is overwritten. -/
theorem addPreferenceList_cons_ge (fid now : Nat) (aid : String) (pref : PrefInput)
    (x : AgentPreference) (l : List AgentPreference)
    (hk : x.key = pref.key) (hr : x.confidence.rank ≤ pref.confidence.rank) :
    addPreferenceList fid now aid pref (x :: l) =
      (applyPrefUpdate x pref :: l, applyPrefUpdate x pref) := by
  simp only [addPreferenceList]
  rw [if_pos hk, if_pos hr]

/-- Unfolding `addPreferenceList` at a matching entry of strictly higher
confidence: the store is unchanged. -/
theorem addPreferenceList_cons_lt (fid now : Nat) (aid : String) (pref : PrefInput)
    (x : AgentPreference) (l : List AgentPreference)
    (hk : x.key = pref.key) (hr : ¬ x.confidence.rank ≤ pref.confidence.rank) :
    addPreferenceList fid now aid pref (x :: l) = (x :: l, x) := by
  simp only [addPreferenceList]
  rw [if_pos hk, if_neg hr]

/-- Entrywise, `addPreferenceList` preserves keys and never lowers the
confidence rank of a stored entry. -/
theorem addPreferenceList_rank_mono (fid now : Nat) (aid : String) (pref : PrefInput) :
    ∀ (l : List AgentPreference) (i : Nat) (p q : AgentPreference),
      l[i]? = some p → ((addPreferenceList fid now aid pref l).1)[i]? = some q →
      p.key = q.key ∧ p.confidence.rank ≤ q.confidence.rank := by
  intro l
  induction l with
  | nil => intro i p q hp _; simp at hp
  | cons x rest ih =>
      intro i p q hp hq
      by_cases hk : x.key = pref.key
      · by_cases hr : x.confidence.rank ≤ pref.confidence.rank
        · rw [addPreferenceList_cons_ge fid now aid pref x rest hk hr] at hq
          cases i with
          | zero =>
              simp only [List.getElem?_cons_zero, Option.some.injEq] at hp hq
              subst hp; subst hq
              exact ⟨rfl, hr⟩
          | succ j =>
              simp only [List.getElem?_cons_succ] at hp hq
              rw [hp] at hq
              cases hq
              exact ⟨rfl, le_refl _⟩
        · rw [addPreferenceList_cons_lt fid now aid pref x rest hk hr] at hq
          cases i with
          | zero =>
              simp only [List.getElem?_cons_zero, Option.some.injEq] at hp hq
              subst hp; subst hq
              exact ⟨rfl, le_refl _⟩
          | succ j =>
              simp only [List.getElem?_cons_succ] at hp hq
              rw [hp] at hq
              cases hq
              exact ⟨rfl, le_refl _⟩
      · rw [addPreferenceList_cons_ne _ _ _ _ _ _ hk] at hq
        cases i with
        | zero =>
            simp only [List.getElem?_cons_zero, Option.some.injEq] at hp hq
            subst hp; subst hq
            exact ⟨rfl, le_refl _⟩
        | succ j =>
            simp only [List.getElem?_cons_succ] at hp hq
            exact ih j p q hp hq

/-- C5: `addPreference` on an existing key replaces the stored entry's
value, source, category and confidence iff the new confidence rank is at
least the stored one (order assumed < inferred < explicit); a strictly
lower confidence leaves the store unchanged; and entrywise the stored
confidence never decreases. -/
theorem c5_addPreference_confidence_upsert :
    (∀ (st : PreferenceManagerState) (agentId : String) (pref : PrefInput) (now : Nat)
       (l₁ l₂ : List AgentPreference) (p₀ : AgentPreference),
        st.prefs agentId = l₁ ++ p₀ :: l₂ →
        (∀ p ∈ l₁, p.key ≠ pref.key) →
        p₀.key = pref.key →
        (st.addPreference agentId pref now).1.prefs agentId =
          (if p₀.confidence.rank ≤ pref.confidence.rank
           then l₁ ++ applyPrefUpdate p₀ pref :: l₂
           else l₁ ++ p₀ :: l₂))
    ∧ (∀ (st : PreferenceManagerState) (agentId : String) (pref : PrefInput) (now : Nat)
         (i : Nat) (p q : AgentPreference),
        (st.prefs agentId)[i]? = some p →
        ((st.addPreference agentId pref now).1.prefs agentId)[i]? = some q →
        p.key = q.key ∧ p.confidence.rank ≤ q.confidence.rank) := by
  constructor
  · intro st agentId pref now l₁ l₂ p₀ hdecomp hl₁ h₀
    simp only [PreferenceManagerState.addPreference, if_pos rfl]
    rw [hdecomp]
    exact addPreferenceList_found st.nextId now agentId pref l₁ l₂ p₀ hl₁ h₀
  · intro st agentId pref now i p q hp hq
    simp only [PreferenceManagerState.addPreference, if_pos rfl] at hq
    exact addPreferenceList_rank_mono st.nextId now agentId pref (st.prefs agentId) i p q hp hq

/-- The stored preference used by the C5 witness. -/
def c5P0 : AgentPreference :=
  { id := 1
    agentId := "sam"
    category := "style"
    key := "indent"
    value := "2 spaces"
    source := "assumed default"
    confidence := .assumed
    createdAt := 0
    usedCount := 0
    lastUsedAt := none }

/-- The incoming preference used by the C5 witness. -/
def c5Pref : PrefInput :=
  { category := "style"
    key := "indent"
    value := "4 spaces"
    source := "reply"
    confidence := .explicit }

/-- The PreferenceManager state used by the C5 witness. -/
def c5St : PreferenceManagerState :=
  { prefs := fun a => if a = "sam" then [c5P0] else []
    nextId := 5 }

/-- C5 (witness): the upsert theorem applied at a concrete store. -/
theorem c5_addPreference_confidence_upsert_witness :
    (c5St.addPreference "sam" c5Pref 9).1.prefs "sam" =
      (if c5P0.confidence.rank ≤ c5Pref.confidence.rank
       then [] ++ applyPrefUpdate c5P0 c5Pref :: []
       else [] ++ c5P0 :: []) ∧
    (c5P0.key = (applyPrefUpdate c5P0 c5Pref).key ∧
      c5P0.confidence.rank ≤ (applyPrefUpdate c5P0 c5Pref).confidence.rank) := by
  constructor
  · exact c5_addPreference_confidence_upsert.1 c5St "sam" c5Pref 9 [] [] c5P0
      (by decide) (by decide) (by decide)
  · exact c5_addPreference_confidence_upsert.2 c5St "sam" c5Pref 9 0 c5P0
      (applyPrefUpdate c5P0 c5Pref) (by decide) (by decide)

/-! ## C9 — approvePermission resolution and idempotence -/

/-- Filtering twice with the same predicate equals filtering once. -/
theorem filter_twice {α : Type} (p : α → Bool) (l : List α) :
    (l.filter p).filter p = l.filter p := by
  induction l with
  | nil => rfl
  | cons x xs ih => by_cases h : p x <;> simp [List.filter_cons, h, ih]

/-- C9: `approvePermission` resolves to the stored (canonically cased)
tool name of the first case-insensitive match, removes every entry with
that lowercased name, reports `allApproved` exactly when the remaining
list is empty, and is idempotent: a second application with the same tool
changes nothing and reports the same `allApproved`. -/
theorem c9_approvePermission_idempotent :
    (∀ (s : Session) (tool : String) (ps : List PendingPermission)
       (p : PendingPermission),
        s.pendingPermissions = some ps →
        ps.find? (fun q => lowName q = jsToLower tool) = some p →
        p.toolName ≠ "" →
        (approvePermission s tool).2.1 = p.toolName)
    ∧ (∀ (s : Session) (tool : String) (ps : List PendingPermission),
        s.pendingPermissions = some ps →
        (approvePermission s tool).1.pendingPermissions =
          some (ps.filter (fun q => lowName q ≠ jsToLower tool)) ∧
        ((approvePermission s tool).2.2 = true ↔
          (approvePermission s tool).1.pendingPermissions = some []))
    ∧ (∀ (s : Session) (tool : String),
        (approvePermission (approvePermission s tool).1 tool).1 =
          (approvePermission s tool).1 ∧
        (approvePermission (approvePermission s tool).1 tool).2.2 =
          (approvePermission s tool).2.2) := by
  refine ⟨?_, ?_, ?_⟩
  · intro s tool ps p hps hfind hne
    simp only [approvePermission, hps]
    rw [hfind]
    simp [hne]
  · intro s tool ps hps
    constructor
    · simp only [approvePermission, hps]
    · simp only [approvePermission, hps]
      simp [List.isEmpty_iff]
  · intro s tool
    cases hps : s.pendingPermissions with
    | none => simp [approvePermission, hps]
    | some ps =>
        simp only [approvePermission, hps]
        constructor
        · simp [filter_twice]
        · simp [filter_twice]

/-- The session used by the C9 witness: one pending `Bash` permission. -/
def c9Session : Session :=
  { agentId := "sam"
    taskId := "t1"
    status := .waitingInput
    messages := []
    pendingPermissions := some [{ toolName := "Bash", toolInput := "input" }] }

/-- C9 (witness): the approval theorem applied at a concrete session. -/
theorem c9_approvePermission_idempotent_witness :
    (approvePermission c9Session "bash").2.1 = "Bash" ∧
    ((approvePermission c9Session "bash").1.pendingPermissions =
       some (([{ toolName := "Bash", toolInput := "input" }] :
         List PendingPermission).filter (fun q => lowName q ≠ jsToLower "bash")) ∧
     ((approvePermission c9Session "bash").2.2 = true ↔
       (approvePermission c9Session "bash").1.pendingPermissions = some [])) ∧
    ((approvePermission (approvePermission c9Session "bash").1 "bash").1 =
       (approvePermission c9Session "bash").1 ∧
     (approvePermission (approvePermission c9Session "bash").1 "bash").2.2 =
       (approvePermission c9Session "bash").2.2) := by
  refine ⟨?_, ?_, ?_⟩
  · exact c9_approvePermission_idempotent.1 c9Session "bash"
      [{ toolName := "Bash", toolInput := "input" }]
      { toolName := "Bash", toolInput := "input" } rfl (by decide) (by decide)
  · exact c9_approvePermission_idempotent.2.1 c9Session "bash"
      [{ toolName := "Bash", toolInput := "input" }] rfl
  · exact c9_approvePermission_idempotent.2.2 c9Session "bash"

/-! ## C3 — permission denials park the session in waiting_input -/

/-- Whether a published event is a `permission_requested`. -/
def isPermReqEv : SMEvent → Bool
  | .permissionRequested _ _ => true
  | _ => false

/-- The dedup loop keeps pairwise-distinct lowercased names, all of them
outside `seen`. -/
theorem dedupDenialsAux_nodup : ∀ (ds : List PendingPermission) (seen : List String),
    ((dedupDenialsAux seen ds).map lowName).Nodup ∧
    ∀ x ∈ (dedupDenialsAux seen ds).map lowName, x ∉ seen := by
  intro ds
  induction ds with
  | nil => intro seen; simp [dedupDenialsAux]
  | cons d rest ih =>
      intro seen
      by_cases hmem : lowName d ∈ seen
      · simp only [dedupDenialsAux, if_pos hmem]
        exact ih seen
      · simp only [dedupDenialsAux, if_neg hmem]
        obtain ⟨hnd, hnin⟩ := ih (lowName d :: seen)
        refine ⟨?_, ?_⟩
        · simp only [List.map_cons, List.nodup_cons]
          exact ⟨fun hcontra => (hnin _ hcontra) (List.mem_cons_self _ _), hnd⟩
        · intro x hx
          simp only [List.map_cons, List.mem_cons] at hx
          rcases hx with h | h
          · subst h; exact hmem
          · exact fun hxs => (hnin x h) (List.mem_cons_of_mem _ hxs)

/-- Every denial's lowercased name is represented in the dedup output (or
was already seen). -/
theorem dedupDenialsAux_covers : ∀ (ds : List PendingPermission) (seen : List String)
    (d : PendingPermission), d ∈ ds →
    lowName d ∈ seen ∨ lowName d ∈ (dedupDenialsAux seen ds).map lowName := by
  intro ds
  induction ds with
  | nil => intro seen d h; simp at h
  | cons e rest ih =>
      intro seen d hd
      rcases List.mem_cons.mp hd with h | h
      · subst h
        by_cases hmem : lowName d ∈ seen
        · exact Or.inl hmem
        · right
          simp [dedupDenialsAux, hmem]
      · by_cases hmem : lowName e ∈ seen
        · simp only [dedupDenialsAux, if_pos hmem]
          exact ih seen d h
        · simp only [dedupDenialsAux, if_neg hmem]
          rcases ih (lowName e :: seen) d h with hin | hin
          · rcases List.mem_cons.mp hin with h' | h'
            · right; simp [h']
            · exact Or.inl h'
          · right; simp [hin]

/-- The dedup output has pairwise-distinct lowercased tool names. -/
theorem dedupDenials_nodup (ds : List PendingPermission) :
    ((dedupDenials ds).map lowName).Nodup :=
  (dedupDenialsAux_nodup ds []).1

/-- The dedup output covers every denial's lowercased tool name. -/
theorem dedupDenials_covers (ds : List PendingPermission) (d : PendingPermission)
    (h : d ∈ ds) : lowName d ∈ (dedupDenials ds).map lowName :=
  ((dedupDenialsAux_covers ds [] d h).resolve_left (by simp))

/-- Filtering the `permission_requested` events out of themselves is the
identity. -/
theorem permReq_map_filter (uniques : List PendingPermission) :
    (uniques.map (fun d => SMEvent.permissionRequested d.toolName d.toolInput)).filter
      isPermReqEv =
      uniques.map (fun d => SMEvent.permissionRequested d.toolName d.toolInput) := by
  induction uniques with
  | nil => rfl
  | cons d rest ih => simp [isPermReqEv, ih]

/-- A `permission_requested` event is never a `session_ended`. -/
theorem permReq_map_any_ended (uniques : List PendingPermission) :
    (uniques.map (fun d => SMEvent.permissionRequested d.toolName d.toolInput)).any
      isSessionEndedEv = false := by
  induction uniques with
  | nil => rfl
  | cons d rest ih => simp [isSessionEndedEv, ih]

/-- The optional appended result message contributes no
`permission_requested` event. -/
theorem msgList_filter_permReq (o : Option SessionMessage) :
    ((match o with
      | some m => [SMEvent.sessionMessage m]
      | none => ([] : List SMEvent))).filter isPermReqEv = [] := by
  cases o <;> simp [isPermReqEv]

/-- The optional appended result message is not a `session_ended`. -/
theorem msgList_any_ended (o : Option SessionMessage) :
    ((match o with
      | some m => [SMEvent.sessionMessage m]
      | none => ([] : List SMEvent))).any isSessionEndedEv = false := by
  cases o <;> simp [isSessionEndedEv]

/-- The status of the session after an optional message append. -/
theorem msgAppend_status (s : Session) (o : Option SessionMessage) :
    (match o with
      | some m => { s with messages := s.messages ++ [m] }
      | none => s).status = s.status := by
  cases o <;> rfl

/-- The status of the parse branch of `handleStreamEvent`. -/
theorem status_after_parse (s : Session) (o : Option SessionMessage) :
    ((match o with
      | some m => ({ s with messages := s.messages ++ [m] }, [SMEvent.sessionMessage m])
      | none => (s, ([] : List SMEvent))) : Session × List SMEvent).1.status = s.status := by
  cases o <;> rfl

/-- C3: a terminal result event with a non-empty `permission_denials` list
moves the session to `waiting_input` (publishing no `session_ended`),
stores the case-insensitively deduplicated denials in
`pendingPermissions`, and publishes exactly one `permission_requested`
per unique tool name; a session in `waiting_input` keeps that status
under every further stream event; only the operator actions (deny, stop)
end it, in `completed` resp. `error`. -/
theorem c3_waiting_input_flow :
    (∀ (s : Session) (subtype : Option String) (res : Option String)
       (denials : List RawDenial),
        (subtype = some "close" ∨ subtype = some "success" ∨ subtype = some "error") →
        denials ≠ [] →
        (handleStreamEvent s (.result subtype res denials)).1.status = .waitingInput ∧
        (handleStreamEvent s (.result subtype res denials)).1.pendingPermissions =
          some (dedupDenials (denials.map toPendingPermission)) ∧
        (handleStreamEvent s (.result subtype res denials)).2.filter isPermReqEv =
          (dedupDenials (denials.map toPendingPermission)).map
            (fun d => SMEvent.permissionRequested d.toolName d.toolInput) ∧
        ((dedupDenials (denials.map toPendingPermission)).map lowName).Nodup ∧
        (∀ d ∈ denials, lowName (toPendingPermission d) ∈
          (dedupDenials (denials.map toPendingPermission)).map lowName) ∧
        (handleStreamEvent s (.result subtype res denials)).2.any isSessionEndedEv = false)
    ∧ (∀ (s : Session) (e : StreamEvent),
        s.status = .waitingInput →
        (handleStreamEvent s e).1.status = .waitingInput)
    ∧ (∀ s : Session, s.status = .waitingInput →
        (denyPermission s).1.status = .completed ∧
        (endSession s .error).1.status = .error) := by
  refine ⟨?_, ?_, ?_⟩
  · intro s subtype res denials hterm hden
    simp only [handleStreamEvent]
    rw [if_pos hterm, if_pos hden]
    refine ⟨rfl, rfl, ?_, dedupDenials_nodup _, ?_, ?_⟩
    · simp only [List.filter_append, msgList_filter_permReq, permReq_map_filter]
      simp [isPermReqEv]
    · intro d hd
      exact dedupDenials_covers _ _ (List.mem_map_of_mem toPendingPermission hd)
    · simp only [List.any_append, msgList_any_ended, permReq_map_any_ended]
      simp [isSessionEndedEv]
  · intro s e hst
    cases e with
    | result subtype res denials =>
        simp only [handleStreamEvent]
        by_cases hterm : subtype = some "close" ∨ subtype = some "success" ∨
            subtype = some "error"
        · rw [if_pos hterm]
          by_cases hden : denials ≠ []
          · rw [if_pos hden]
          · rw [if_neg hden]
            split
            · rename_i hcond
              exact hcond
            · rename_i hcond
              exact absurd (by rw [msgAppend_status]; exact hst) hcond
        · rw [if_neg hterm]
          exact hst
    | assistant m =>
        simp only [handleStreamEvent]
        rw [status_after_parse]; exact hst
    | contentBlockStart b =>
        simp only [handleStreamEvent]
        rw [status_after_parse]; exact hst
    | contentBlockDelta d =>
        simp only [handleStreamEvent]
        rw [status_after_parse]; exact hst
    | toolResult c o =>
        simp only [handleStreamEvent]
        rw [status_after_parse]; exact hst
    | system st' c o =>
        simp only [handleStreamEvent]
        rw [status_after_parse]; exact hst
    | otherEvent =>
        simp only [handleStreamEvent]
        rw [status_after_parse]; exact hst
  · intro s hst
    constructor
    · simp [denyPermission, endSession, hst]
    · simp [endSession, hst]

/-- C3 (witness): the theorem applied to a concrete active session
receiving a `success` result carrying two denials of the same tool in
different cases, then to a concrete waiting session receiving a plain
close. -/
theorem c3_waiting_input_flow_witness :
    (handleStreamEvent
        { agentId := "sam", taskId := "t1", status := .active, messages := [],
          pendingPermissions := none }
        (.result (some "success") none
          [{ tool_name := some "Bash", toolName := none, tool_input := none,
             toolInput := none },
           { tool_name := some "bash", toolName := none, tool_input := none,
             toolInput := none }])).1.status = .waitingInput ∧
    (handleStreamEvent
        { agentId := "sam", taskId := "t1", status := .waitingInput, messages := [],
          pendingPermissions := some [{ toolName := "Bash", toolInput := "i" }] }
        (.result (some "close") none [])).1.status = .waitingInput ∧
    (denyPermission
        { agentId := "sam", taskId := "t1", status := .waitingInput, messages := [],
          pendingPermissions := some [{ toolName := "Bash", toolInput := "i" }] }).1.status =
      .completed := by
  refine ⟨?_, ?_, ?_⟩
  · exact (c3_waiting_input_flow.1
      { agentId := "sam", taskId := "t1", status := .active, messages := [],
        pendingPermissions := none }
      (some "success") none
      [{ tool_name := some "Bash", toolName := none, tool_input := none,
         toolInput := none },
       { tool_name := some "bash", toolName := none, tool_input := none,
         toolInput := none }]
      (Or.inr (Or.inl rfl)) (by decide)).1
  · exact c3_waiting_input_flow.2.1
      { agentId := "sam", taskId := "t1", status := .waitingInput, messages := [],
        pendingPermissions := some [{ toolName := "Bash", toolInput := "i" }] }
      (.result (some "close") none []) rfl
  · exact (c3_waiting_input_flow.2.2
      { agentId := "sam", taskId := "t1", status := .waitingInput, messages := [],
        pendingPermissions := some [{ toolName := "Bash", toolInput := "i" }] } rfl).1

/-! ## C10 — routing of [NEEDS_INPUT] results -/

/-- Membership in the marker-occurrence list. -/
theorem mem_markerOccurrences (s : List Char) (i : Nat) :
    i ∈ markerOccurrences s ↔
      i < s.length + 1 ∧ NEEDS_INPUT_MARKER.isPrefixOf (s.drop i) = true := by
  simp [markerOccurrences, List.mem_filter, List.mem_range]

/-- The occurrence list is strictly increasing. -/
theorem markerOccurrences_pairwise (s : List Char) :
    (markerOccurrences s).Pairwise (· < ·) :=
  (List.pairwise_lt_range _).filter _

/-- The value of `getLast?` is a member of the list. -/
theorem mem_of_getLast?' {α : Type} : ∀ {l : List α} {a : α},
    l.getLast? = some a → a ∈ l := by
  intro l
  induction l with
  | nil => intro a h; simp at h
  | cons x xs ih =>
      intro a h
      cases xs with
      | nil =>
          simp [List.getLast?] at h
          simp [h]
      | cons y ys =>
          rw [List.getLast?_cons_cons] at h
          exact List.mem_cons_of_mem _ (ih h)

/-- In a strictly increasing list, `getLast?` is an upper bound. -/
theorem pairwise_lt_le_getLast? : ∀ {l : List Nat} {a : Nat},
    l.Pairwise (· < ·) → l.getLast? = some a → ∀ x ∈ l, x ≤ a := by
  intro l
  induction l with
  | nil => intro a _ h; simp at h
  | cons y ys ih =>
      intro a hpw hlast x hx
      cases ys with
      | nil =>
          simp [List.getLast?] at hlast
          simp at hx
          omega
      | cons z zs =>
          rw [List.getLast?_cons_cons] at hlast
          have hpw' := List.pairwise_cons.mp hpw
          rcases List.mem_cons.mp hx with h | h
          · subst h
            have hyz : x < z := hpw'.1 z (List.mem_cons_self _ _)
            have hza := ih hpw'.2 hlast z (List.mem_cons_self _ _)
            omega
          · exact ih hpw'.2 hlast x h

/-- The value of `getLast?` is `none` exactly on the empty list. -/
theorem getLast?_none_iff {α : Type} : ∀ (l : List α), l.getLast? = none ↔ l = [] := by
  intro l
  induction l with
  | nil => simp
  | cons x xs ih =>
      cases xs with
      | nil => simp [List.getLast?]
      | cons y ys =>
          rw [List.getLast?_cons_cons]
          simp only [ih]
          simp

/-- A marker occurrence at index `i ≤ |s|` is the same as a decomposition
of `s` with a prefix of length `i` before the marker. -/
theorem marker_prefix_drop_iff (s : List Char) (i : Nat) (hi : i ≤ s.length) :
    NEEDS_INPUT_MARKER.isPrefixOf (s.drop i) = true ↔
      ∃ l₁ l₂, s = l₁ ++ NEEDS_INPUT_MARKER ++ l₂ ∧ l₁.length = i := by
  rw [ List.isPrefixOf_iff_prefix]
  constructor
  · intro h
    obtain ⟨t, ht⟩ := h
    refine ⟨s.take i, t, ?_, ?_⟩
    · conv_lhs => rw [← List.take_append_drop i s]
      rw [← ht]
      simp [List.append_assoc]
    · rw [List.length_take]
      omega
  · rintro ⟨l₁, l₂, hs, hlen⟩
    subst hs
    subst hlen
    rw [List.append_assoc, List.drop_left]
    exact List.prefix_append _ _

/-- A decomposition bounds the prefix length by the full length. -/
theorem decomp_length_le (s l₁ l₂ : List Char)
    (h : s = l₁ ++ NEEDS_INPUT_MARKER ++ l₂) : l₁.length ≤ s.length := by
  subst h
  simp [List.length_append]

/-- C10 (amended): `extractNeedsInput` returns exactly the trimmed text
after the **last** marker occurrence (no occurrence starts later), is
`none` exactly when the marker does not occur, and the step is routed to
the auto-answer path iff the marker occurs **and** the trimmed text after
its last occurrence is non-empty (a result ending in the bare marker is
not routed). -/
theorem c10_needs_input_routing :
    (∀ (result q : List Char), extractNeedsInput result = some q →
        ∃ l₁ l₂, result = l₁ ++ NEEDS_INPUT_MARKER ++ l₂ ∧ q = jsTrim l₂ ∧
          ∀ j, l₁.length < j →
            NEEDS_INPUT_MARKER.isPrefixOf (result.drop j) = false)
    ∧ (∀ result : List Char,
        extractNeedsInput result = none ↔
          ∀ l₁ l₂, result ≠ l₁ ++ NEEDS_INPUT_MARKER ++ l₂)
    ∧ (∀ result : List Char,
        routesToNeedsInput result = true ↔
          ∃ q, extractNeedsInput result = some q ∧ q ≠ []) := by
  refine ⟨?_, ?_, ?_⟩
  · intro result q hq
    cases hli : lastMarkerIndex result with
    | none => simp [extractNeedsInput, hli] at hq
    | some i =>
        simp only [extractNeedsInput, hli] at hq
        have hmem := mem_of_getLast?' hli
        rw [mem_markerOccurrences] at hmem
        obtain ⟨hilt, hpref⟩ := hmem
        have hile : i ≤ result.length := by omega
        obtain ⟨l₁, l₂, hs, hlen⟩ := (marker_prefix_drop_iff result i hile).mp hpref
        refine ⟨l₁, l₂, hs, ?_, ?_⟩
        · rw [Option.some.injEq] at hq
          rw [← hq]
          congr 1
          rw [hs, ← hlen]
          have hlen2 : l₁.length + NEEDS_INPUT_MARKER.length =
              (l₁ ++ NEEDS_INPUT_MARKER).length := by
            simp [List.length_append]
          rw [hlen2, List.drop_left]
        · intro j hj
          rw [hlen] at hj
          by_cases hjle : j ≤ result.length
          · by_contra hcontra
            rw [Bool.not_eq_false] at hcontra
            have hjmem : j ∈ markerOccurrences result := by
              rw [mem_markerOccurrences]
              exact ⟨by omega, hcontra⟩
            have := pairwise_lt_le_getLast? (markerOccurrences_pairwise result) hli j hjmem
            omega
          · have hdrop : result.drop j = [] := by
              apply List.drop_eq_nil_of_le
              omega
            rw [hdrop]
            decide
  · intro result
    constructor
    · intro hnone l₁ l₂ hs
      have hnil : markerOccurrences result = [] := by
        have : lastMarkerIndex result = none := by
          simp only [extractNeedsInput] at hnone
          cases hli : lastMarkerIndex result with
          | none => rfl
          | some i => rw [hli] at hnone; simp at hnone
        rw [lastMarkerIndex, getLast?_none_iff] at this
        exact this
      have hle := decomp_length_le result l₁ l₂ hs
      have hpref : NEEDS_INPUT_MARKER.isPrefixOf (result.drop l₁.length) = true :=
        (marker_prefix_drop_iff result l₁.length hle).mpr ⟨l₁, l₂, hs, rfl⟩
      have hmem : l₁.length ∈ markerOccurrences result := by
        rw [mem_markerOccurrences]
        exact ⟨by omega, hpref⟩
      rw [hnil] at hmem
      simp at hmem
    · intro hno
      have hnil : markerOccurrences result = [] := by
        simp only [markerOccurrences]
        rw [List.filter_eq_nil_iff]
        intro i hi hpref
        have hile : i ≤ result.length := by
          rw [List.mem_range] at hi
          omega
        obtain ⟨l₁, l₂, hs, _⟩ :=
          (marker_prefix_drop_iff result i hile).mp (by simpa using hpref)
        exact hno l₁ l₂ hs
      simp only [extractNeedsInput, lastMarkerIndex, hnil]
      rfl
  · intro result
    cases hx : extractNeedsInput result with
    | none => simp [routesToNeedsInput, hx]
    | some q => simp [routesToNeedsInput, hx]

/-- C10 (counterexample): a result that *contains* the marker but ends
with it (empty trimmed question) is **not** routed — JS treats the empty
extracted question as falsy — refuting "routes whenever the marker occurs
anywhere". -/
theorem c10_needs_input_routing_counterexample :
    (∃ l₁ l₂, ("done [NEEDS_INPUT]:").data =
        l₁ ++ NEEDS_INPUT_MARKER ++ l₂) ∧
    routesToNeedsInput ("done [NEEDS_INPUT]:").data = false ∧
    routesToNeedsInput ("done [NEEDS_INPUT]: which db?").data = true ∧
    extractNeedsInput ("done [NEEDS_INPUT]: which db?").data =
      some ("which db?").data :=
  ⟨⟨("done ").data, [], by decide⟩, by decide, by decide, by decide⟩

/-- C10 (witness): the amended theorem applied at a concrete result whose
marker is followed by a real question. -/
theorem c10_needs_input_routing_witness :
    (∃ l₁ l₂, ("ok [NEEDS_INPUT]: which db?").data =
        l₁ ++ NEEDS_INPUT_MARKER ++ l₂ ∧ ("which db?").data = jsTrim l₂ ∧
        ∀ j, l₁.length < j →
          NEEDS_INPUT_MARKER.isPrefixOf (("ok [NEEDS_INPUT]: which db?").data.drop j) =
            false) ∧
    (routesToNeedsInput ("ok [NEEDS_INPUT]: which db?").data = true ↔
      ∃ q, extractNeedsInput ("ok [NEEDS_INPUT]: which db?").data = some q ∧ q ≠ []) := by
  constructor
  · exact c10_needs_input_routing.1 ("ok [NEEDS_INPUT]: which db?").data
      ("which db?").data (by decide)
  · exact c10_needs_input_routing.2.2 ("ok [NEEDS_INPUT]: which db?").data

/-! ## C8 — no events from superseded subprocesses -/

/-- A process `p` for session `sid` has been superseded: the state is
well-formed, `p` is an old pid, and it is no longer the registered
process for `sid`. -/
def NASuperseded (st : NAState) (sid : String) (p : Nat) : Prop :=
  NAInv st ∧ p < st.counter ∧ st.sessionProcesses sid ≠ some p

/-- Every NodeAdapter step preserves well-formedness. -/
theorem naInv_step (st : NAState) (op : NAOp) (h : NAInv st) : NAInv (st.step op).1 := by
  cases op with
  | startSession s =>
      intro sid pid hpid
      by_cases hs : sid = s
      · subst hs
        simp [NAState.step, NAState.spawn] at hpid ⊢
        omega
      · simp [NAState.step, NAState.spawn, hs] at hpid ⊢
        have := h sid pid hpid
        omega
  | sendToSession s =>
      intro sid pid hpid
      by_cases hex : (st.sessionProcesses s).isSome
      · by_cases hs : sid = s
        · subst hs
          simp [NAState.step, NAState.spawn, hex] at hpid ⊢
          omega
        · simp [NAState.step, NAState.spawn, hex, hs] at hpid ⊢
          have := h sid pid hpid
          omega
      · by_cases hs : sid = s
        · subst hs
          simp [NAState.step, NAState.spawn, hex] at hpid ⊢
          omega
        · simp [NAState.step, NAState.spawn, hex, hs] at hpid ⊢
          have := h sid pid hpid
          omega
  | stopSession s =>
      intro sid pid hpid
      by_cases hex : (st.sessionProcesses s).isSome
      · by_cases hs : sid = s
        · subst hs
          simp [NAState.step, hex] at hpid
        · simp [NAState.step, hex, hs] at hpid ⊢
          exact h sid pid hpid
      · simp [NAState.step, hex] at hpid ⊢
        exact h sid pid hpid
  | procStdout s q evs =>
      intro sid pid hpid
      by_cases hc : st.sessionProcesses s = some q <;>
        simp [NAState.step, hc] at hpid ⊢ <;> exact h sid pid hpid
  | procStderr s q c =>
      intro sid pid hpid
      by_cases hc : st.sessionProcesses s = some q <;>
        simp [NAState.step, hc] at hpid ⊢ <;> exact h sid pid hpid
  | procClose s q ec fl =>
      intro sid pid hpid
      by_cases hc : st.sessionProcesses s = some q
      · by_cases herr : st.hasErrored q
        · simp [NAState.step, hc, herr] at hpid ⊢
          exact h sid pid hpid
        · by_cases hs : sid = s
          · subst hs
            simp [NAState.step, hc, herr] at hpid
          · simp [NAState.step, hc, herr, hs] at hpid ⊢
            exact h sid pid hpid
      · simp [NAState.step, hc] at hpid ⊢
        exact h sid pid hpid
  | procError s q =>
      intro sid pid hpid
      by_cases hc : st.sessionProcesses s = some q
      · by_cases hs : sid = s
        · subst hs
          simp [NAState.step, hc] at hpid
        · simp [NAState.step, hc, hs] at hpid ⊢
          exact h sid pid hpid
      · simp [NAState.step, hc] at hpid ⊢
        exact h sid pid hpid

/-- Every NodeAdapter step leaves the pid counter monotone. -/
theorem naStep_counter_mono (st : NAState) (op : NAOp) :
    st.counter ≤ (st.step op).1.counter := by
  cases op with
  | startSession s => simp [NAState.step, NAState.spawn]
  | sendToSession s =>
      by_cases hex : (st.sessionProcesses s).isSome <;>
        simp [NAState.step, NAState.spawn, hex]
  | stopSession s =>
      by_cases hex : (st.sessionProcesses s).isSome <;>
        simp [NAState.step, hex]
  | procStdout s q evs =>
      by_cases hc : st.sessionProcesses s = some q <;> simp [NAState.step, hc]
  | procStderr s q c =>
      by_cases hc : st.sessionProcesses s = some q <;> simp [NAState.step, hc]
  | procClose s q ec fl =>
      by_cases hc : st.sessionProcesses s = some q
      · by_cases herr : st.hasErrored q <;> simp [NAState.step, hc, herr]
      · simp [NAState.step, hc]
  | procError s q =>
      by_cases hc : st.sessionProcesses s = some q <;> simp [NAState.step, hc]

/-- Once a process is no longer registered for its session-id, no step
re-registers it. -/
theorem naStep_ne_preserved (st : NAState) (op : NAOp) (sid : String) (p : Nat)
    (hlt : p < st.counter) (hne : st.sessionProcesses sid ≠ some p) :
    (st.step op).1.sessionProcesses sid ≠ some p := by
  cases op with
  | startSession s =>
      by_cases hs : sid = s
      · subst hs
        simp [NAState.step, NAState.spawn]
        omega
      · simp [NAState.step, NAState.spawn, hs]
        exact fun h => hne h
  | sendToSession s =>
      by_cases hex : (st.sessionProcesses s).isSome
      · by_cases hs : sid = s
        · subst hs
          simp [NAState.step, NAState.spawn, hex]
          omega
        · simp [NAState.step, NAState.spawn, hex, hs]
          exact fun h => hne h
      · by_cases hs : sid = s
        · subst hs
          simp [NAState.step, NAState.spawn, hex]
          omega
        · simp [NAState.step, NAState.spawn, hex, hs]
          exact fun h => hne h
  | stopSession s =>
      by_cases hex : (st.sessionProcesses s).isSome
      · by_cases hs : sid = s
        · subst hs
          simp [NAState.step, hex]
        · simp [NAState.step, hex, hs]
          exact fun h => hne h
      · simp [NAState.step, hex]
        exact fun h => hne h
  | procStdout s q evs =>
      by_cases hc : st.sessionProcesses s = some q <;> simp [NAState.step, hc] <;>
        exact fun h => hne h
  | procStderr s q c =>
      by_cases hc : st.sessionProcesses s = some q <;> simp [NAState.step, hc] <;>
        exact fun h => hne h
  | procClose s q ec fl =>
      by_cases hc : st.sessionProcesses s = some q
      · by_cases herr : st.hasErrored q
        · simp [NAState.step, hc, herr]
          exact fun h => hne h
        · by_cases hs : sid = s
          · subst hs
            simp [NAState.step, hc, herr]
          · simp [NAState.step, hc, herr, hs]
            exact fun h => hne h
      · simp [NAState.step, hc]
        exact fun h => hne h
  | procError s q =>
      by_cases hc : st.sessionProcesses s = some q
      · by_cases hs : sid = s
        · subst hs
          simp [NAState.step, hc]
        · simp [NAState.step, hc, hs]
          exact fun h => hne h
      · simp [NAState.step, hc]
        exact fun h => hne h

/-- Supersession is stable under every NodeAdapter step. -/
theorem naStep_preserves_superseded (st : NAState) (op : NAOp) (sid : String) (p : Nat)
    (h : NASuperseded st sid p) : NASuperseded (st.step op).1 sid p :=
  ⟨naInv_step st op h.1, lt_of_lt_of_le h.2.1 (naStep_counter_mono st op),
   naStep_ne_preserved st op sid p h.2.1 h.2.2⟩

/-- A listener invocation of a superseded process emits nothing. -/
theorem naStep_superseded_silent (st : NAState) (op : NAOp) (sid : String) (p : Nat)
    (h : NASuperseded st sid p) (hop : op.isFrom sid p = true) :
    (st.step op).2 = [] := by
  obtain ⟨_, _, hne⟩ := h
  cases op with
  | startSession s => simp [NAOp.isFrom] at hop
  | sendToSession s => simp [NAOp.isFrom] at hop
  | stopSession s => simp [NAOp.isFrom] at hop
  | procStdout s q evs =>
      simp [NAOp.isFrom] at hop
      obtain ⟨rfl, rfl⟩ := hop
      simp [NAState.step, hne]
  | procStderr s q c =>
      simp [NAOp.isFrom] at hop
      obtain ⟨rfl, rfl⟩ := hop
      simp [NAState.step, hne]
  | procClose s q ec fl =>
      simp [NAOp.isFrom] at hop
      obtain ⟨rfl, rfl⟩ := hop
      simp [NAState.step, hne]
  | procError s q =>
      simp [NAOp.isFrom] at hop
      obtain ⟨rfl, rfl⟩ := hop
      simp [NAState.step, hne]

/-- Along any run from a state where process `p` is superseded for `sid`,
every listener invocation of `p` emits nothing. -/
theorem naRun_superseded_silent (sid : String) (p : Nat) :
    ∀ (ops : List NAOp) (st : NAState), NASuperseded st sid p →
      ∀ pr ∈ (st.run ops).2, pr.1.isFrom sid p = true → pr.2 = [] := by
  intro ops
  induction ops with
  | nil => intro st _ pr hpr; simp [NAState.run] at hpr
  | cons op rest ih =>
      intro st h pr hpr hfrom
      simp only [NAState.run, List.mem_cons] at hpr
      rcases hpr with hpr | hpr
      · subst hpr
        exact naStep_superseded_silent st op sid p h hfrom
      · exact ih (st.step op).1 (naStep_preserves_superseded st op sid p h) pr hpr hfrom

/-- C8: once `sendToSession` (resume) or `stopSession` replaces or removes
the subprocess registered for a session-id, no stdout/stderr/close/error
listener invocation of the superseded subprocess ever emits a session
event — in particular no terminal close from the previous subprocess is
delivered after a resume. -/
theorem c8_superseded_suppression (st : NAState) (sid : String) (p : Nat)
    (hinv : NAInv st) (hreg : st.sessionProcesses sid = some p) :
    (∀ ops, ∀ pr ∈ ((st.step (.sendToSession sid)).1.run ops).2,
        pr.1.isFrom sid p = true → pr.2 = []) ∧
    (∀ ops, ∀ pr ∈ ((st.step (.stopSession sid)).1.run ops).2,
        pr.1.isFrom sid p = true → pr.2 = []) := by
  have hp : p < st.counter := hinv sid p hreg
  have hexreg : (st.sessionProcesses sid).isSome := by simp [hreg]
  constructor
  · intro ops pr hpr hfrom
    refine naRun_superseded_silent sid p ops _ ⟨?_, ?_, ?_⟩ pr hpr hfrom
    · exact naInv_step st _ hinv
    · simp [NAState.step, NAState.spawn, hexreg]
      omega
    · simp [NAState.step, NAState.spawn, hexreg]
      omega
  · intro ops pr hpr hfrom
    refine naRun_superseded_silent sid p ops _ ⟨?_, ?_, ?_⟩ pr hpr hfrom
    · exact naInv_step st _ hinv
    · simp [NAState.step, hexreg]
      omega
    · simp [NAState.step, hexreg]

/-- C8 (witness): the suppression theorem applied after an initial spawn,
running the superseded process's close listener. -/
theorem c8_superseded_suppression_witness :
    (∀ pr ∈ (((NAState.init.step (.startSession "s")).1.step
        (.sendToSession "s")).1.run
          [.procClose "s" 0 (some 0) none]).2,
        pr.1.isFrom "s" 0 = true → pr.2 = []) ∧
    (∀ pr ∈ (((NAState.init.step (.startSession "s")).1.step
        (.stopSession "s")).1.run
          [.procClose "s" 0 (some 0) none]).2,
        pr.1.isFrom "s" 0 = true → pr.2 = []) := by
  have hinv : NAInv (NAState.init.step (.startSession "s")).1 := by
    intro sid pid hpid
    by_cases hs : sid = "s"
    · subst hs
      simp [NAState.init, NAState.step, NAState.spawn] at hpid ⊢
      omega
    · simp [NAState.init, NAState.step, NAState.spawn, hs] at hpid
  have hreg : (NAState.init.step (.startSession "s")).1.sessionProcesses "s" = some 0 := by
    simp [NAState.init, NAState.step, NAState.spawn]
  constructor
  · exact fun pr hpr hfrom =>
      (c8_superseded_suppression (NAState.init.step (.startSession "s")).1 "s" 0
        hinv hreg).1 [.procClose "s" 0 (some 0) none] pr hpr hfrom
  · exact fun pr hpr hfrom =>
      (c8_superseded_suppression (NAState.init.step (.startSession "s")).1 "s" 0
        hinv hreg).2 [.procClose "s" 0 (some 0) none] pr hpr hfrom

/-! ## C6 — activeExecutions vs live sessions -/

/-- Handling a stream event never changes the session's agent. -/
theorem handleStreamEvent_agentId (s : Session) (e : StreamEvent) :
    (handleStreamEvent s e).1.agentId = s.agentId := by
  unfold handleStreamEvent endSession
  cases e <;> dsimp only <;> (repeat' split) <;> rfl

/-- After `handleStreamEvent` the session either keeps its status, is
parked in `waiting_input`, or a `session_ended` was published. -/
theorem handleStreamEvent_status_cases (s : Session) (e : StreamEvent) :
    (handleStreamEvent s e).1.status = s.status ∨
    (handleStreamEvent s e).1.status = SessionStatus.waitingInput ∨
    (handleStreamEvent s e).2.any isSessionEndedEv = true := by
  unfold handleStreamEvent endSession
  cases e <;> dsimp only <;> (repeat' split) <;> simp [isSessionEndedEv]

/-- Ending a session never changes the session's agent. -/
theorem endSession_agentId (s : Session) (status : SessionStatus) :
    (endSession s status).1.agentId = s.agentId := by
  unfold endSession
  split <;> rfl

/-- After `endSession` the session either keeps its status or a
`session_ended` was published. -/
theorem endSession_status_cases (s : Session) (status : SessionStatus) :
    (endSession s status).1.status = s.status ∨
    (endSession s status).2.any isSessionEndedEv = true := by
  unfold endSession
  split <;> simp [isSessionEndedEv]

/-- Approving a permission changes neither the agent nor the status of the
session. -/
theorem approvePermission_session (s : Session) (tool : String) :
    (approvePermission s tool).1.agentId = s.agentId ∧
    (approvePermission s tool).1.status = s.status := by
  cases h : s.pendingPermissions <;> simp [approvePermission, h]

/-- The C6 invariant that actually holds: session-ids at or above the
counter are unused, and a set `activeExecutions` flag always has a live
session behind it. (The converse fails; see the counterexample.) -/
def SysInv (st : SysState) : Prop :=
  (∀ sid, st.nextSessionId ≤ sid → st.sessions sid = none) ∧
  (∀ a, st.activeExecutions a = true →
     ∃ sid s, st.sessions sid = some s ∧ s.agentId = a ∧ liveStatus s.status = true)

/-- Clearing a single-flight flag preserves the invariant. -/
theorem sysInv_clear_flag (st : SysState) (a : String) (h : SysInv st) :
    SysInv { st with
      activeExecutions := fun b => if b = a then false else st.activeExecutions b } := by
  obtain ⟨hf, hw⟩ := h
  refine ⟨hf, ?_⟩
  intro b hb
  dsimp only at hb
  by_cases hba : b = a
  · rw [if_pos hba] at hb
    exact Bool.noConfusion hb
  · rw [if_neg hba] at hb
    exact hw b hb

/-- Replacing an existing session by one of the same agent that is still
live preserves the invariant, whatever happens to `agentSessionMap`. -/
theorem sysInv_update_live (st st' : SysState) (sid : Nat) (s s' : Session)
    (hinv : SysInv st) (hs : st.sessions sid = some s)
    (hsess : ∀ i, st'.sessions i = if i = sid then some s' else st.sessions i)
    (hflags : st'.activeExecutions = st.activeExecutions)
    (hnext : st'.nextSessionId = st.nextSessionId)
    (hag : s'.agentId = s.agentId) (hlv : liveStatus s'.status = true) :
    SysInv st' := by
  obtain ⟨hf, hw⟩ := hinv
  have hsidlt : sid < st.nextSessionId := by
    by_contra hcon
    push_neg at hcon
    rw [hf sid hcon] at hs
    exact Option.noConfusion hs
  constructor
  · intro j hj
    rw [hnext] at hj
    rw [hsess j, if_neg (by omega : j ≠ sid)]
    exact hf j hj
  · intro b hb
    rw [hflags] at hb
    obtain ⟨sid', sOld, hs', hag', hlv'⟩ := hw b hb
    by_cases hsid' : sid' = sid
    · refine ⟨sid, s', by rw [hsess]; simp, ?_, hlv⟩
      rw [hsid'] at hs'
      rw [hs, Option.some.injEq] at hs'
      rw [hag, hs']
      exact hag'
    · exact ⟨sid', sOld, by rw [hsess, if_neg hsid']; exact hs', hag', hlv'⟩

/-- Allocating a fresh `active` session for agent `a` preserves the
invariant, provided any newly set flag belongs to `a`. -/
theorem sysInv_new_session (st st' : SysState) (a t : String)
    (hinv : SysInv st)
    (hsess : ∀ i, st'.sessions i =
        if i = st.nextSessionId then
          some { agentId := a, taskId := t, status := .active, messages := [],
                 pendingPermissions := none }
        else st.sessions i)
    (hflags : ∀ b, st'.activeExecutions b = true → b = a ∨ st.activeExecutions b = true)
    (hnext : st'.nextSessionId = st.nextSessionId + 1) :
    SysInv st' := by
  obtain ⟨hf, hw⟩ := hinv
  constructor
  · intro j hj
    rw [hnext] at hj
    rw [hsess j, if_neg (by omega : j ≠ st.nextSessionId)]
    exact hf j (by omega)
  · intro b hb
    rcases hflags b hb with hba | hb'
    · refine ⟨st.nextSessionId,
        { agentId := a, taskId := t, status := .active, messages := [],
          pendingPermissions := none }, ?_, ?_, ?_⟩
      · rw [hsess]; simp
      · exact hba.symm
      · simp [liveStatus]
    · obtain ⟨sid', s', hs', hag', hlv'⟩ := hw b hb'
      have hne : sid' ≠ st.nextSessionId := by
        intro hcon
        rw [hcon, hf st.nextSessionId (le_refl _)] at hs'
        exact Option.noConfusion hs'
      exact ⟨sid', s', by rw [hsess, if_neg hne]; exact hs', hag', hlv'⟩

/-- Applying a session result preserves the invariant when the applied result
comes from a session transformation that keeps the agent and either keeps
the status, parks in `waiting_input`, or publishes the `session_ended` it
reacts to. -/
theorem applySessionResult_inv (st : SysState) (sid : Nat) (s : Session)
    (r : Session × List SMEvent) (hinv : SysInv st) (hs : st.sessions sid = some s)
    (hagent : r.1.agentId = s.agentId)
    (hcases : r.1.status = s.status ∨ r.1.status = SessionStatus.waitingInput ∨
      r.2.any isSessionEndedEv = true) :
    SysInv (st.applySessionResult sid s.agentId r) := by
  obtain ⟨hf, hw⟩ := hinv
  have hsidlt : sid < st.nextSessionId := by
    by_contra hcon
    push_neg at hcon
    rw [hf sid hcon] at hs
    exact Option.noConfusion hs
  unfold SysState.applySessionResult
  dsimp only
  by_cases hend : r.2.any isSessionEndedEv
  · rw [if_pos hend]
    by_cases hwait : r.1.status = .waitingInput
    · rw [if_pos hwait]
      constructor
      · intro j hj
        dsimp only at hj ⊢
        rw [if_neg (by omega : j ≠ sid)]
        exact hf j hj
      · intro b hb
        dsimp only at hb ⊢
        obtain ⟨sid', sOld, hs', hag', hlv'⟩ := hw b hb
        by_cases hsid' : sid' = sid
        · refine ⟨sid, r.1, by simp, ?_, ?_⟩
          · rw [hsid', hs, Option.some.injEq] at hs'
            rw [hagent, hs']
            exact hag'
          · rw [hwait]
            simp [liveStatus]
        · exact ⟨sid', sOld, by rw [if_neg hsid']; exact hs', hag', hlv'⟩
    · rw [if_neg hwait]
      constructor
      · intro j hj
        dsimp only at hj ⊢
        rw [if_neg (by omega : j ≠ sid)]
        exact hf j hj
      · intro b hb
        dsimp only at hb ⊢
        by_cases hba : b = s.agentId
        · rw [if_pos hba] at hb
          exact Bool.noConfusion hb
        · rw [if_neg hba] at hb
          obtain ⟨sid', sOld, hs', hag', hlv'⟩ := hw b hb
          have hsid' : sid' ≠ sid := by
            intro hcon
            rw [hcon, hs, Option.some.injEq] at hs'
            exact hba (by rw [hs']; exact hag'.symm)
          exact ⟨sid', sOld, by rw [if_neg hsid']; exact hs', hag', hlv'⟩
  · rw [if_neg hend]
    have hnoend : r.2.any isSessionEndedEv = false := by
      revert hend
      cases r.2.any isSessionEndedEv <;> simp
    constructor
    · intro j hj
      dsimp only at hj ⊢
      rw [if_neg (by omega : j ≠ sid)]
      exact hf j hj
    · intro b hb
      dsimp only at hb ⊢
      obtain ⟨sid', sOld, hs', hag', hlv'⟩ := hw b hb
      by_cases hsid' : sid' = sid
      · refine ⟨sid, r.1, by simp, ?_, ?_⟩
        · rw [hsid', hs, Option.some.injEq] at hs'
          rw [hagent, hs']
          exact hag'
        · have hsOld : sOld = s := by
            rw [hsid', hs, Option.some.injEq] at hs'
            exact hs'.symm
          rcases hcases with hkeep | hwait | hended
          · rw [hkeep]
            rw [hsOld] at hlv'
            exact hlv'
          · rw [hwait]
            simp [liveStatus]
          · rw [hended] at hnoend
            exact Bool.noConfusion hnoend
      · exact ⟨sid', sOld, by rw [if_neg hsid']; exact hs', hag', hlv'⟩

/-- Unpacking a successful `getActiveSessionForAgent` lookup. -/
theorem getActive_some (st : SysState) (a : String) (sid : Nat) (s : Session)
    (h : st.getActiveSessionForAgent a = some (sid, s)) :
    st.sessions sid = some s ∧ liveStatus s.status = true := by
  unfold SysState.getActiveSessionForAgent at h
  cases hmap : st.agentSessionMap a with
  | none => rw [hmap] at h; exact Option.noConfusion h
  | some sid' =>
      rw [hmap] at h
      dsimp only at h
      cases hsess : st.sessions sid' with
      | none => rw [hsess] at h; exact Option.noConfusion h
      | some s' =>
          rw [hsess] at h
          dsimp only at h
          by_cases hlv : liveStatus s'.status = true
          · rw [if_pos hlv, Option.some.injEq] at h
            have h1 : sid' = sid := congrArg Prod.fst h
            have h2 : s' = s := congrArg Prod.snd h
            refine ⟨?_, ?_⟩
            · rw [← h1, ← h2]
              exact hsess
            · rw [← h2]
              exact hlv
          · rw [if_neg hlv] at h
            exact Option.noConfusion h

/-- Every composed-system operation preserves the invariant. -/
theorem sysInv_stepOp (st : SysState) (op : SysOp) (h : SysInv st) :
    SysInv (st.stepOp op) := by
  cases op with
  | executeTask a t =>
      simp only [SysState.stepOp, SysState.executeTask]
      by_cases hbusy : st.activeExecutions a
      · rw [if_pos hbusy]
        exact h
      · rw [if_neg hbusy]
        apply sysInv_new_session st _ a t h
        · intro i
          simp [SysState.startSession]
        · intro b hb
          dsimp only [SysState.startSession] at hb
          by_cases hba : b = a
          · exact Or.inl hba
          · rw [if_neg hba] at hb
            exact Or.inr hb
        · simp [SysState.startSession]
  | startConversation a m =>
      simp only [SysState.stepOp, SysState.startConversation]
      cases hact : st.getActiveSessionForAgent a with
      | none =>
          dsimp only
          apply sysInv_new_session st _ a "conversation" h
          · intro i
            simp [SysState.startSession]
          · intro b hb
            dsimp only [SysState.startSession] at hb
            exact Or.inr hb
          · simp [SysState.startSession]
      | some pair =>
          obtain ⟨sid, s⟩ := pair
          obtain ⟨hs, hlv⟩ := getActive_some st a sid s hact
          dsimp only
          simp only [SysState.sendMessage]
          rw [hs]
          dsimp only
          apply sysInv_update_live st _ sid s
            { s with messages := s.messages ++ [⟨.user, m, none⟩], status := .active } h hs
          · intro i
            rfl
          · rfl
          · rfl
          · rfl
          · simp [liveStatus]
  | streamEvent sid e =>
      simp only [SysState.stepOp, SysState.deliverStreamEvent]
      cases hsess : st.sessions sid with
      | none => exact h
      | some s =>
          exact applySessionResult_inv st sid s (handleStreamEvent s e) h hsess
            (handleStreamEvent_agentId s e) (handleStreamEvent_status_cases s e)
  | approveTool a tool =>
      simp only [SysState.stepOp, SysState.approveToolPermission]
      cases hact : st.getActiveSessionForAgent a with
      | none => exact h
      | some pair =>
          obtain ⟨sid, s⟩ := pair
          obtain ⟨hs, hlv⟩ := getActive_some st a sid s hact
          dsimp only
          by_cases hall : (approvePermission s tool).2.2
          · rw [if_pos hall]
            apply sysInv_update_live st _ sid s
              { (approvePermission s tool).1 with
                  status := .active, pendingPermissions := none } h hs
            · intro i
              dsimp only
              by_cases hi : i = sid <;> simp [hi]
            · rfl
            · rfl
            · exact (approvePermission_session s tool).1
            · simp [liveStatus]
          · rw [if_neg hall]
            apply sysInv_update_live st _ sid s (approvePermission s tool).1 h hs
            · intro i
              rfl
            · rfl
            · rfl
            · exact (approvePermission_session s tool).1
            · rw [(approvePermission_session s tool).2]
              exact hlv
  | denyTool a =>
      simp only [SysState.stepOp, SysState.denyToolPermission]
      cases hact : st.getActiveSessionForAgent a with
      | none => exact h
      | some pair =>
          obtain ⟨sid, s⟩ := pair
          obtain ⟨hs, _⟩ := getActive_some st a sid s hact
          exact applySessionResult_inv st sid s (denyPermission s) h hs
            (endSession_agentId s _)
            ((endSession_status_cases s .completed).imp id Or.inr)
  | cancel a =>
      simp only [SysState.stepOp, SysState.cancelExecution]
      cases hact : st.getActiveSessionForAgent a with
      | none => exact h
      | some pair =>
          obtain ⟨sid, s⟩ := pair
          obtain ⟨hs, _⟩ := getActive_some st a sid s hact
          dsimp only
          exact sysInv_clear_flag _ a
            (applySessionResult_inv st sid s (endSession s .error) h hs
              (endSession_agentId s _)
              ((endSession_status_cases s .error).imp id Or.inr))

/-- Runs preserve the invariant. -/
theorem sysInv_runOps : ∀ (ops : List SysOp) (st : SysState),
    SysInv st → SysInv (st.runOps ops) := by
  intro ops
  induction ops with
  | nil => intro st h; exact h
  | cons op rest ih =>
      intro st h
      exact ih (st.stepOp op) (sysInv_stepOp st op h)

/-- The initial state satisfies the invariant. -/
theorem sysInv_init : SysInv SysState.init := by
  constructor
  · intro j _
    rfl
  · intro a ha
    exact Bool.noConfusion ha

/-- C6 (counterexample): a conversation session is live without
`activeExecutions` being set — refuting the claimed iff — and a
subsequent `executeTask` passes the single-flight check and creates a
second live session for the same agent — refuting at-most-one. -/
theorem c6_counterexample :
    ((SysState.init.runOps [.startConversation "sam" "hi"]).sessions 0).map
        (fun s => (s.agentId, liveStatus s.status)) = some ("sam", true) ∧
    (SysState.init.runOps [.startConversation "sam" "hi"]).activeExecutions "sam" =
      false ∧
    ((SysState.init.runOps
        [.startConversation "sam" "hi", .executeTask "sam" "t1"]).sessions 0).map
        (fun s => (s.agentId, liveStatus s.status)) = some ("sam", true) ∧
    ((SysState.init.runOps
        [.startConversation "sam" "hi", .executeTask "sam" "t1"]).sessions 1).map
        (fun s => (s.agentId, liveStatus s.status)) = some ("sam", true) := by
  refine ⟨?_, ?_, ?_, ?_⟩ <;> rfl

/-- C6 (amended): whenever `activeExecutions[a]` is true, some session of
agent `a` is in `active`/`starting`/`waiting_input`; and `executeTask` is
single-flight — dispatching while the flag is set changes nothing. The
converse of the first part (and at-most-one live session per agent) fails
because `startConversation` creates sessions without touching the flag. -/
theorem c6_single_flight_guard :
    (∀ (ops : List SysOp) (a : String),
        (SysState.init.runOps ops).activeExecutions a = true →
        ∃ sid s, (SysState.init.runOps ops).sessions sid = some s ∧
          s.agentId = a ∧ liveStatus s.status = true)
    ∧ (∀ (st : SysState) (a t : String),
        st.activeExecutions a = true → st.executeTask a t = st) := by
  constructor
  · intro ops a ha
    exact (sysInv_runOps ops SysState.init sysInv_init).2 a ha
  · intro st a t hbusy
    simp [SysState.executeTask, hbusy]

/-- C6 (witness): the amended theorem applied to a one-dispatch run and to
a concrete busy state. -/
theorem c6_single_flight_guard_witness :
    (∃ sid s,
        (SysState.init.runOps [.executeTask "sam" "t1"]).sessions sid = some s ∧
        s.agentId = "sam" ∧ liveStatus s.status = true) ∧
    SysState.executeTask
        { sessions := fun _ => none
          agentSessionMap := fun _ => none
          activeExecutions := fun a => a = "sam"
          nextSessionId := 0 } "sam" "t2" =
      { sessions := fun _ => none
        agentSessionMap := fun _ => none
        activeExecutions := fun a => a = "sam"
        nextSessionId := 0 } := by
  constructor
  · exact c6_single_flight_guard.1 [.executeTask "sam" "t1"] "sam" rfl
  · exact c6_single_flight_guard.2
      { sessions := fun _ => none
        agentSessionMap := fun _ => none
        activeExecutions := fun a => a = "sam"
        nextSessionId := 0 } "sam" "t2" (by simp)

/-! ## C7 — setPlan versioning and fresh pending steps -/

/-- C7: with an existing goal, each `setPlan` produces a fresh plan whose
version is the previous plan's version plus one (or 1), whose steps are
all `pending` with dense orders `0..n-1` in input order; two successive
calls produce versions `v` and `v+1` and only the second plan is returned
by `getCurrentPlan`. -/
theorem c7_setPlan_versioning
    (st : GoalManagerState) (goalId : String) (steps₁ steps₂ : List String)
    (r₁ r₂ : String) (lc₁ lc₂ : Option Lifecycle) (t₁ t₂ : Nat) (g : GMGoal)
    (hgoal : st.goals goalId = some g) :
    ∃ p₁ p₂,
      (st.setPlan goalId steps₁ r₁ lc₁ t₁).2 = some p₁ ∧
      ((st.setPlan goalId steps₁ r₁ lc₁ t₁).1.setPlan goalId steps₂ r₂ lc₂ t₂).2 = some p₂ ∧
      p₁.version = (match st.plans goalId with
                    | some q => q.version + 1
                    | none => 1) ∧
      p₂.version = p₁.version + 1 ∧
      ((st.setPlan goalId steps₁ r₁ lc₁ t₁).1.setPlan goalId steps₂ r₂ lc₂ t₂).1.getCurrentPlan
          goalId = some p₂ ∧
      p₁.steps.map (fun s => s.status) = List.replicate steps₁.length .pending ∧
      p₁.steps.map (fun s => s.order) = List.range steps₁.length ∧
      p₁.steps.map (fun s => s.description) = steps₁ ∧
      p₂.steps.map (fun s => s.status) = List.replicate steps₂.length .pending ∧
      p₂.steps.map (fun s => s.order) = List.range steps₂.length ∧
      p₂.steps.map (fun s => s.description) = steps₂ ∧
      p₂ ≠ p₁ := by
  rcases hp₁ : (st.setPlan goalId steps₁ r₁ lc₁ t₁).2 with _ | p₁
  · exfalso
    simp [GoalManagerState.setPlan, hgoal] at hp₁
  rcases hp₂ : ((st.setPlan goalId steps₁ r₁ lc₁ t₁).1.setPlan goalId steps₂ r₂ lc₂ t₂).2
      with _ | p₂
  · exfalso
    simp [GoalManagerState.setPlan, hgoal] at hp₂
  refine ⟨p₁, p₂, rfl, rfl, ?_, ?_, ?_, ?_, ?_, ?_, ?_, ?_, ?_, ?_⟩
  all_goals
    simp only [GoalManagerState.setPlan, hgoal, Option.some.injEq] at hp₁ hp₂
    subst hp₁
    subst hp₂
  · rfl
  · simp
  · simp [GoalManagerState.setPlan, GoalManagerState.getCurrentPlan, hgoal]
  · simp [List.map_map, Function.comp_def, List.map_const', List.enum_length]
  · simp [List.map_map, Function.comp_def]
  · simp [List.map_map, Function.comp_def]
  · simp [List.map_map, Function.comp_def, List.map_const', List.enum_length]
  · simp [List.map_map, Function.comp_def]
  · simp [List.map_map, Function.comp_def]
  · intro h
    have := congrArg GMPlan.version h
    simp at this

/-- The goal store used by the C7 witness. -/
def c7Goal : GMGoal :=
  { id := "g1"
    agentId := "sam"
    description := "optimize queries"
    constraints := []
    status := .active
    maxTurnsPerStep := 10
    createdAt := 0
    updatedAt := 0 }

/-- The GoalManager state used by the C7 witness. -/
def c7St : GoalManagerState :=
  { goals := fun gid => if gid = "g1" then some c7Goal else none
    plans := fun _ => none
    nextId := 0 }

/-- C7 (witness): the versioning theorem applied at a concrete store. -/
theorem c7_setPlan_versioning_witness :
    ∃ p₁ p₂,
      (c7St.setPlan "g1" ["profile"] "r" none 0).2 = some p₁ ∧
      ((c7St.setPlan "g1" ["profile"] "r" none 0).1.setPlan "g1" ["fix"] "r" none 1).2 =
        some p₂ ∧
      p₁.version = (match c7St.plans "g1" with
                    | some q => q.version + 1
                    | none => 1) ∧
      p₂.version = p₁.version + 1 ∧
      ((c7St.setPlan "g1" ["profile"] "r" none 0).1.setPlan "g1" ["fix"] "r" none
            1).1.getCurrentPlan "g1" = some p₂ ∧
      p₁.steps.map (fun s => s.status) = List.replicate (["profile"].length) .pending ∧
      p₁.steps.map (fun s => s.order) = List.range (["profile"].length) ∧
      p₁.steps.map (fun s => s.description) = ["profile"] ∧
      p₂.steps.map (fun s => s.status) = List.replicate (["fix"].length) .pending ∧
      p₂.steps.map (fun s => s.order) = List.range (["fix"].length) ∧
      p₂.steps.map (fun s => s.description) = ["fix"] ∧
      p₂ ≠ p₁ :=
  c7_setPlan_versioning c7St "g1" ["profile"] ["fix"] "r" "r" none none 0 1 c7Goal rfl

/-- C4 (witness): the policy theorem applied at concrete inputs. -/
theorem c4_retry_escalate_policy_witness :
    evaluateStepDecision { content := "x", error := none }
        (some { verdict := some "RETRY", refined_instruction := some "r",
                escalation_question := none }) 0 3 "d" =
      .retry 1 (jsOr (some "r") "d") ∧
    ((1 : Nat) = 0 + 1 ∧ 0 < 2 ∧ 1 ≤ 2) ∧
    evaluateStepDecision { content := "x", error := none }
        (some { verdict := some "ESCALATE", refined_instruction := none,
                escalation_question := some "q" }) 0 3 "d" =
      .escalate (jsOr (some "q") (defaultEscalationQuestion 3 "d" 0)) ∧
    evaluateStepDecision { content := "x", error := none }
        (some { verdict := some "RETRY", refined_instruction := some "r",
                escalation_question := some "q" }) 2 3 "d" =
      .escalate (jsOr (some "q") (defaultEscalationQuestion 3 "d" 2)) := by
  refine ⟨?_, ?_, ?_, ?_⟩
  · exact c4_retry_escalate_policy.1 { content := "x", error := none } _ 0 3 "d"
      (by decide) rfl (by decide)
  · exact c4_retry_escalate_policy.2.1 { content := "x", error := none }
      (some { verdict := some "RETRY", refined_instruction := some "r",
              escalation_question := none }) 0 3 "d" "r" 1 (by decide)
  · exact c4_retry_escalate_policy.2.2.1 { content := "x", error := none } _ 0 3 "d"
      (by decide) rfl
  · exact c4_retry_escalate_policy.2.2.2 { content := "x", error := none } _ 2 3 "d"
      (by decide) rfl (by decide)

end Workfarm
